import Mathlib

/-!
Verification of the Mira PR-review engine against its specification.

The Python sources under `src/mira/` are embedded shallowly:
pure functions become Lean functions, Python `int` becomes `Int`
(or `Nat` where the source value is a length or a count),
Python `float` fields (confidences, thresholds) are modelled as `Rat`,
and fallible code returns `Except`/`Option`.  External collaborators
(the LLM HTTP client, the hosting provider, the `unidiff`/`json`/`jinja2`
libraries) are universally quantified oracle parameters.
-/

/-! ## Python string primitives

Helpers mirroring the semantics of the CPython string operations used by
the sources (`str.strip`, `str.lower`, `str.split`, substring `in`,
slicing, `str.rfind`, `str.splitlines`).  Strings are handled through
their character lists; ASCII case folding suffices for the embedded code
because every keyword table in the sources is ASCII.
-/

/-- Whitespace recognised by Python's `str.strip` / `str.split` (ASCII range). -/
def pyIsSpace (c : Char) : Bool :=
  c = ' ' || c = '\t' || c = '\n' || c = '\r' || c = '\x0b' || c = '\x0c'

/-- Python `str.strip()` on a character list. -/
def pyStripList (l : List Char) : List Char :=
  ((l.dropWhile pyIsSpace).reverse.dropWhile pyIsSpace).reverse

/-- Python `str.strip()`. -/
def pyStrip (s : String) : String :=
  ⟨pyStripList s.data⟩

/-- ASCII lower-casing of one character, as Python `str.lower` does on ASCII. -/
def pyLowerChar (c : Char) : Char :=
  if 'A' ≤ c ∧ c ≤ 'Z' then Char.ofNat (c.toNat + 32) else c

/-- Python `str.lower()` (ASCII). -/
def pyLower (s : String) : String :=
  ⟨s.data.map pyLowerChar⟩

/-- Python substring membership `needle in hay` on character lists:
true when `needle` occurs contiguously in `hay` (the empty needle always occurs). -/
def pyContainsList (hay needle : List Char) : Bool :=
  (List.range (hay.length + 1)).any (fun i => needle.isPrefixOf (hay.drop i))

/-- Python substring membership `needle in hay` for strings. -/
def pyContains (hay needle : String) : Bool :=
  pyContainsList hay.data needle.data

/-- Python slicing `s[:n]` for a non-negative bound. -/
def pyTake (s : String) (n : Nat) : String :=
  ⟨s.data.take n⟩

/-- Python `len(s)` (number of characters). -/
def pyLen (s : String) : Nat :=
  s.data.length

/-- One splitting step for `str.split()`: accumulate maximal non-space runs. -/
def pySplitWsAux : List Char → List Char → List (List Char)
  | [], acc => if acc.isEmpty then [] else [acc.reverse]
  | c :: rest, acc =>
      if pyIsSpace c then
        if acc.isEmpty then pySplitWsAux rest [] else acc.reverse :: pySplitWsAux rest []
      else
        pySplitWsAux rest (c :: acc)

/-- Python `str.split()` with no argument: split on whitespace runs,
discarding empty pieces. -/
def pySplitWs (s : String) : List String :=
  (pySplitWsAux s.data []).map (fun l => ⟨l⟩)

/-! ## Severity (src/mira/models.py)

`Severity` is an `IntEnum` with BLOCKER=4, WARNING=3, SUGGESTION=2,
NITPICK=1; comparisons are by numeric value.
-/

/-- Review comment severity, ordered from least to most severe
(mirrors `mira.models.Severity`). -/
inductive Severity where
  | nitpick
  | suggestion
  | warning
  | blocker
deriving DecidableEq, Repr

/-- The `IntEnum` numeric value of a severity. -/
def Severity.val : Severity → Nat
  | .nitpick => 1
  | .suggestion => 2
  | .warning => 3
  | .blocker => 4

instance : LT Severity := ⟨fun a b => a.val < b.val⟩

instance : LE Severity := ⟨fun a b => a.val ≤ b.val⟩

instance (a b : Severity) : Decidable (a < b) := by
  unfold instLTSeverity; exact Nat.decLt a.val b.val

instance (a b : Severity) : Decidable (a ≤ b) := by
  unfold instLESeverity; exact Nat.decLe a.val b.val

/-- The alias table of `Severity.from_str` (models.py lines 28-39),
in source order. -/
def severityAliasTable : List (String × Severity) :=
  [ ("blocker", .blocker)
  , ("critical", .blocker)
  , ("error", .blocker)
  , ("warning", .warning)
  , ("warn", .warning)
  , ("suggestion", .suggestion)
  , ("suggest", .suggestion)
  , ("nitpick", .nitpick)
  , ("nit", .nitpick)
  , ("style", .nitpick)
  ]

/-- `Severity.from_str`: normalise by `strip().lower()`, look up the alias
table, and default to SUGGESTION when the key is absent (models.py 26-43). -/
def Severity.from_str (value : String) : Severity :=
  let normalized := pyLower (pyStrip value)
  match severityAliasTable.find? (fun p => p.1 = normalized) with
  | some p => p.2
  | none => .suggestion

/-! ## Review comments (src/mira/models.py `ReviewComment`)

Python `float` confidence is modelled as `Rat`; `line`/`end_line` are
Python ints, modelled as `Int`.
-/

/-- A single review comment to post (mirrors `mira.models.ReviewComment`). -/
structure ReviewComment where
  path : String
  line : Int
  end_line : Option Int
  severity : Severity
  category : String
  title : String
  body : String
  confidence : Rat
  suggestion : Option String := none
  agent_prompt : Option String := none
deriving DecidableEq, Repr

/-! ## Severity classifier (src/mira/analysis/severity.py) -/

/-- `_EXPLOITABLE_KEYWORDS` (severity.py 10-24). -/
def exploitableKeywords : List String :=
  [ "sql injection"
  , "xss"
  , "cross-site scripting"
  , "command injection"
  , "shell injection"
  , "path traversal"
  , "directory traversal"
  , "remote code execution"
  , "arbitrary code"
  , "eval("
  , "exec("
  , "deserialization"
  , "buffer overflow"
  ]

/-- A Python `\w` word character in the ASCII range (`re` with ASCII text). -/
def pyIsWordChar (c : Char) : Bool :=
  ('a' ≤ c ∧ c ≤ 'z') || ('A' ≤ c ∧ c ≤ 'Z') || ('0' ≤ c ∧ c ≤ '9') || c = '_'

/-- Does `word` occur at index `i` of `text` with `\b` word boundaries on both
sides?  Mirrors matching one of `_EXPLOITABLE_WORD_PATTERNS` at one position. -/
def wordBoundedAt (text word : List Char) (i : Nat) : Bool :=
  word.isPrefixOf (text.drop i)
  && (decide (i = 0) || !(pyIsWordChar ((text.drop (i - 1)).headD ' ')))
  && (decide (i + word.length ≥ text.length) || !(pyIsWordChar ((text.drop (i + word.length)).headD ' ')))

/-- `re.search` for a `\bword\b` pattern (severity.py 27-31): does the word
occur anywhere with word boundaries? -/
def wordBoundedSearch (text word : String) : Bool :=
  (List.range (text.data.length + 1)).any (wordBoundedAt text.data word.data)

/-- The short keywords of `_EXPLOITABLE_WORD_PATTERNS`. -/
def exploitableWordKeywords : List String := ["rce", "csrf", "ssrf"]

/-- `_SECURITY_SMELL_KEYWORDS` (severity.py 34-44). -/
def securitySmellKeywords : List String :=
  [ "hardcoded"
  , "default key"
  , "default password"
  , "default secret"
  , "insecure default"
  , "missing error handling"
  , "missing validation"
  , "insecure"
  , "vulnerability"
  ]

/-- `_STYLE_KEYWORDS` (severity.py 46-57). -/
def styleKeywords : List String :=
  [ "naming convention"
  , "variable name"
  , "formatting"
  , "whitespace"
  , "indentation"
  , "line length"
  , "import order"
  , "unused import"
  , "trailing whitespace"
  , "blank line"
  ]

/-- The lower-cased `title + " " + body` text that `classify_severity`
matches keywords against (severity.py 73). -/
def classifyText (comment : ReviewComment) : String :=
  pyLower (comment.title ++ " " ++ comment.body)

/-- The exploitable-vulnerability test of `classify_severity`
(severity.py 77-79). -/
def isExploitableText (text : String) : Bool :=
  exploitableKeywords.any (fun kw => pyContains text kw)
  || exploitableWordKeywords.any (fun kw => wordBoundedSearch text kw)

/-- The security-smell keyword test of `classify_severity` (severity.py 86). -/
def hasSecuritySmell (text : String) : Bool :=
  securitySmellKeywords.any (fun kw => pyContains text kw)

/-- `_is_style_only` (severity.py 102-106). -/
def isStyleOnly (text : String) : Bool :=
  styleKeywords.any (fun kw => pyContains text kw)
  && !(["bug", "error", "crash", "security", "vulnerability"].any
        (fun kw => pyContains text kw))

/-- `_with_severity` (severity.py 109-121).  Note: exactly the fields the
source constructor lists are copied; `agent_prompt` is not among them, so it
falls back to the dataclass default `None`. -/
def withSeverity (comment : ReviewComment) (severity : Severity) : ReviewComment :=
  { path := comment.path
  , line := comment.line
  , end_line := comment.end_line
  , severity := severity
  , category := comment.category
  , title := comment.title
  , body := comment.body
  , confidence := comment.confidence
  , suggestion := comment.suggestion
  }

/-- `classify_severity` (severity.py 65-99).  The source's local variables
`text` and `is_security` are inlined as `classifyText comment` and the
category test. -/
def classify_severity (comment : ReviewComment) : ReviewComment :=
  if isExploitableText (classifyText comment) then
    if comment.severity < Severity.blocker then withSeverity comment .blocker
    else comment
  else if comment.category = "security" ∨ hasSecuritySmell (classifyText comment) then
    if comment.severity < Severity.warning then withSeverity comment .warning
    else if Severity.warning < comment.severity then withSeverity comment .warning
    else comment
  else if (comment.category = "style" ∨ isStyleOnly (classifyText comment))
          ∧ Severity.nitpick < comment.severity then
    withSeverity comment .nitpick
  else comment

/-! ## Noise filter (src/mira/analysis/noise_filter.py)

`FilterConfig` defaults come from src/mira/config.py.  `max_comments` is
modelled as `Nat` (pydantic enforces `ge=1`).
-/

/-- The filter section of the configuration (config.py `FilterConfig`). -/
structure FilterConfig where
  confidence_threshold : Rat := 7/10
  max_comments : Nat := 5
  min_severity : String := "nitpick"
  exclude_patterns : List String := []
  exclude_deleted : Bool := true
  max_files : Nat := 50
deriving Repr

/-- The word set of a title: `set(s.lower().split())` (noise_filter.py 11-12). -/
def wordSet (s : String) : Finset String :=
  (pySplitWs (pyLower s)).toFinset

/-- `_jaccard_similarity` (noise_filter.py 9-17): word-level Jaccard
similarity, 0 when either word set is empty. -/
def jaccard (a b : String) : Rat :=
  if wordSet a = ∅ ∨ wordSet b = ∅ then 0
  else ((wordSet a ∩ wordSet b).card : Rat) / ((wordSet a ∪ wordSet b).card : Rat)

/-- `c.end_line or c.line`: Python `or` treats `None` and `0` as falsy. -/
def effEnd (c : ReviewComment) : Int :=
  match c.end_line with
  | some e => if e = 0 then c.line else e
  | none => c.line

/-- `_lines_overlap` (noise_filter.py 20-26). -/
def linesOverlap (c1 c2 : ReviewComment) : Bool :=
  if c1.path ≠ c2.path then false
  else decide (c1.line ≤ effEnd c2 ∧ c2.line ≤ effEnd c1)

/-- `_is_duplicate` (noise_filter.py 29-59). -/
def isDuplicate (a b : ReviewComment) (title_threshold : Rat) : Bool :=
  if a.path ≠ b.path then false
  else if a.line = b.line ∧ effEnd a = effEnd b then true
  else if linesOverlap a b ∧ (0.2 : Rat) ≤ jaccard a.title b.title then true
  else decide (title_threshold ≤ jaccard a.title b.title)

/-- The walk of `_deduplicate` (noise_filter.py 70-73): keep a comment when
it duplicates no already-kept comment. -/
def dedupGo (title_threshold : Rat) : List ReviewComment → List ReviewComment → List ReviewComment
  | acc, [] => acc
  | acc, c :: rest =>
      if acc.any (fun k => isDuplicate c k title_threshold) then
        dedupGo title_threshold acc rest
      else
        dedupGo title_threshold (acc ++ [c]) rest

/-- `_deduplicate` (noise_filter.py 62-75). -/
def deduplicate (comments : List ReviewComment) (title_threshold : Rat) : List ReviewComment :=
  dedupGo title_threshold [] comments

/-- Strict key ordering used by the sort of `filter_noise`:
`key=(severity, confidence), reverse=True` compares the tuples
lexicographically. -/
def sortKeyGT (a b : ReviewComment) : Bool :=
  decide (b.severity.val < a.severity.val)
  || (decide (a.severity.val = b.severity.val) && decide (b.confidence < a.confidence))

/-- Stable descending insertion used to model Python's stable
`list.sort(..., reverse=True)`. -/
def insertByKey (c : ReviewComment) : List ReviewComment → List ReviewComment
  | [] => [c]
  | y :: ys => if sortKeyGT y c then y :: insertByKey c ys else c :: y :: ys

/-- Stable sort by (severity desc, confidence desc), as in
noise_filter.py line 91. -/
def sortComments : List ReviewComment → List ReviewComment
  | [] => []
  | c :: rest => insertByKey c (sortComments rest)

/-- `filter_noise` (noise_filter.py 78-93). -/
def filter_noise (comments : List ReviewComment) (config : FilterConfig) : List ReviewComment :=
  ((deduplicate
      (sortComments
        ((comments.filter (fun c => config.confidence_threshold ≤ c.confidence)).filter
          (fun c => Severity.from_str config.min_severity ≤ c.severity)))
      (0.6 : Rat)).take config.max_comments)

/-! ## Diff data model (src/mira/models.py) -/

/-- `FileChangeType` (models.py 11-15). -/
inductive FileChangeType where
  | added
  | modified
  | deleted
  | renamed
deriving DecidableEq, Repr

/-- `HunkInfo` (models.py 55-63). -/
structure HunkInfo where
  source_start : Int
  source_length : Int
  target_start : Int
  target_length : Int
  content : String
deriving DecidableEq, Repr

/-- `FileDiff` (models.py 66-81). -/
structure FileDiff where
  path : String
  change_type : FileChangeType
  hunks : List HunkInfo := []
  language : String := ""
  old_path : Option String := none
  is_binary : Bool := false
  added_lines : Int := 0
  deleted_lines : Int := 0
deriving DecidableEq, Repr

/-- `PatchSet` (models.py 84-100). -/
structure PatchSet where
  files : List FileDiff := []
deriving DecidableEq, Repr

/-! ## Hunk content extraction (src/mira/core/context.py) -/

/-- `extract_hunk_lines` (context.py 50-55): the raw content of all hunks of
a file joined by newlines. -/
def extract_hunk_lines (file_diff : FileDiff) : String :=
  String.intercalate "\n" (file_diff.hunks.map (fun h => h.content))

/-! ## LLM response parsing (src/mira/llm/response_parser.py)

`parse_llm_response` itself is `json` + pydantic machinery (external
libraries); claims start from its validated output `LLMReviewResponse`.
-/

/-- A validated comment from the LLM review JSON (`LLMComment`,
response_parser.py 23-34).  Field defaults mirror the pydantic model. -/
structure LLMComment where
  path : String
  line : Int
  end_line : Option Int := none
  severity : String := "suggestion"
  category : String := "other"
  title : String := ""
  body : String := ""
  confidence : Rat := 1/2
  suggestion : Option String := none
  agent_prompt : Option String := none
  existing_code : String := ""
deriving DecidableEq, Repr

/-- `LLMMetadata` (response_parser.py 37-39). -/
structure LLMMetadata where
  reviewed_files : Nat := 0
  skipped_reason : Option String := none
deriving DecidableEq, Repr

/-- `LLMReviewResponse` (response_parser.py 42-45). -/
structure LLMReviewResponse where
  comments : List LLMComment := []
  summary : String := ""
  metadata : LLMMetadata := {}
deriving DecidableEq, Repr

/-- Python truthiness of an optional string (`None` and `""` are falsy). -/
def pyTruthyOpt (o : Option String) : Bool :=
  match o with
  | some s => s ≠ ""
  | none => false

/-- `_build_hunk_text_index` (response_parser.py 77-79): a dict comprehension
mapping each file path to its concatenated hunk content; on duplicate paths
the later entry wins, as in a Python dict. -/
def buildHunkIndex (files : List FileDiff) : List (String × String) :=
  files.map (fun f => (f.path, extract_hunk_lines f))

/-- Python `dict.get(k, default)` over an insertion-ordered association
list where the last binding of a key wins. -/
def dictGetD (l : List (String × String)) (k : String) (d : String) : String :=
  match l.reverse.find? (fun p => p.1 = k) with
  | some p => p.2
  | none => d

/-- One iteration of the comment loop of `convert_to_review_comments`
(response_parser.py 96-131): `none` models `continue`. -/
def convertOne (valid_paths : Option (List String)) (hunk_index : List (String × String))
    (c : LLMComment) : Option ReviewComment :=
  if (match valid_paths with
      | some vp => decide (c.path ∉ vp)
      | none => false) then none
  else if c.line < 1 then none
  else if pyTruthyOpt c.suggestion ∧ pyStrip c.body = "" then none
  else if c.existing_code ≠ "" ∧ hunk_index ≠ [] ∧
          ¬ pyContains (dictGetD hunk_index c.path "") (pyStrip c.existing_code) = true then none
  else
    some
      { path := c.path
      , line := c.line
      , end_line :=
          match c.end_line with
          | some e => if e ≠ 0 ∧ c.line < e then some e else none
          | none => none
      , severity := Severity.from_str c.severity
      , category := c.category
      , title := if c.title ≠ "" then pyTake c.title 80 else ""
      , body := c.body
      , confidence := c.confidence
      , suggestion :=
          if pyTruthyOpt c.suggestion ∧ c.existing_code ≠ "" ∧
              pyStrip (c.suggestion.getD "") = pyStrip c.existing_code
          then none else c.suggestion
      , agent_prompt := c.agent_prompt
      }

/-- `convert_to_review_comments` (response_parser.py 82-133). -/
def convert_to_review_comments (response : LLMReviewResponse)
    (valid_paths : Option (List String)) (diff_files : List FileDiff) : List ReviewComment :=
  response.comments.filterMap (convertOne valid_paths (buildHunkIndex diff_files))

/-! ## Chunker (src/mira/core/chunker.py)

`ReviewChunk` (models.py 285-289).  Token counts are Python ints (`Int`);
when an LLM provider is supplied its `count_tokens` is an arbitrary
function, otherwise the 4-chars-per-token estimate is used.
-/

/-- `ReviewChunk` (models.py 285-289). -/
structure ReviewChunk where
  files : List FileDiff := []
  token_estimate : Int := 0
deriving DecidableEq, Repr

/-- `_estimate_tokens` (chunker.py 14-16): `len(text) // 4`. -/
def estimate_tokens (text : String) : Int :=
  ((pyLen text / 4 : Nat) : Int)

/-- `_file_token_estimate` (chunker.py 19-24). -/
def file_token_estimate (file_diff : FileDiff) : Int :=
  ((pyLen file_diff.path / 4 + 20 : Nat) : Int)
    + (file_diff.hunks.map (fun h => estimate_tokens h.content)).sum

/-- Per-file estimate as computed in chunker.py 47-52: the provider's
`count_tokens` on the joined hunk contents when a provider is present,
else `_file_token_estimate`. -/
def fileEstimate (count_tokens : Option (String → Int)) (f : FileDiff) : Int :=
  match count_tokens with
  | some ct => ct (String.intercalate "\n" (f.hunks.map (fun h => h.content)))
  | none => file_token_estimate f

/-- The hunk-keeping loop of `_truncate_file` (chunker.py 96-101):
keep hunks until the running total would exceed the limit. -/
def truncHunksGo (max_tokens : Int) : List HunkInfo → Int → List HunkInfo
  | [], _ => []
  | h :: rest, used =>
      if used + estimate_tokens h.content > max_tokens then []
      else h :: truncHunksGo max_tokens rest (used + estimate_tokens h.content)

/-- `_truncate_file` (chunker.py 91-107): drop trailing hunks to fit the
limit, always retaining at least the first hunk. -/
def truncate_file (file_diff : FileDiff) (max_tokens : Int) : FileDiff :=
  if truncHunksGo max_tokens file_diff.hunks 20 = [] then
    match file_diff.hunks with
    | h0 :: _ => { file_diff with hunks := [h0] }
    | [] => { file_diff with hunks := [] }
  else { file_diff with hunks := truncHunksGo max_tokens file_diff.hunks 20 }

/-- First-fit placement (chunker.py 72-86): append the file to the first
chunk with room, else open a new chunk at the end. -/
def placeFirstFit (available : Int) (f : FileDiff) (est : Int) :
    List ReviewChunk → List ReviewChunk
  | [] => [{ files := [f], token_estimate := est }]
  | ch :: rest =>
      if ch.token_estimate + est ≤ available then
        { files := ch.files ++ [f], token_estimate := ch.token_estimate + est } :: rest
      else
        ch :: placeFirstFit available f est rest

/-- One iteration of the chunking loop (chunker.py 59-86). -/
def chunkStep (available : Int) (chunks : List ReviewChunk) (p : FileDiff × Int) :
    List ReviewChunk :=
  if p.2 > available then
    chunks ++ [{ files := [truncate_file p.1 available], token_estimate := available }]
  else
    placeFirstFit available p.1 p.2 chunks

/-- Stable insertion for the descending sort of chunker.py 55
(`estimates.sort(key=..., reverse=True)` is stable). -/
def insertEstDesc (p : FileDiff × Int) : List (FileDiff × Int) → List (FileDiff × Int)
  | [] => [p]
  | q :: qs => if p.2 < q.2 then q :: insertEstDesc p qs else p :: q :: qs

/-- Stable descending sort of the per-file estimates. -/
def sortEstDesc : List (FileDiff × Int) → List (FileDiff × Int)
  | [] => []
  | p :: ps => insertEstDesc p (sortEstDesc ps)

/-- `chunk_files` (chunker.py 27-88).  `max_tokens` is
`config.llm.max_context_tokens`; the fixed prompt overhead is 2000. -/
def chunk_files (files : List FileDiff) (max_tokens : Int)
    (count_tokens : Option (String → Int)) : List ReviewChunk :=
  if files = [] then []
  else
    (sortEstDesc (files.map (fun f => (f, fileEstimate count_tokens f)))).foldl
      (chunkStep (max_tokens - 2000)) []

/-- The files of a list of chunks, concatenated in order. -/
def chunkFilesOf (chunks : List ReviewChunk) : List FileDiff :=
  (chunks.map (fun c => c.files)).flatten

/-- The file an input contributes to the chunker output: itself, or its
truncation when oversized. -/
def chunkedImage (available : Int) (count_tokens : Option (String → Int))
    (f : FileDiff) : FileDiff :=
  if fileEstimate count_tokens f > available then truncate_file f available else f

/-- The image a sorted `(file, estimate)` pair contributes to the output:
the truncated file when oversized, the file itself otherwise. -/
def pairImage (available : Int) (p : FileDiff × Int) : FileDiff :=
  if p.2 > available then truncate_file p.1 available else p.1

/-! ## Diff size cap (src/mira/core/engine.py 188-198)

`str.rfind` is modelled by a downward scan returning the greatest match
position, `-1`/absence by `Option`.
-/

/-- The boundary marker `"\ndiff --git "` used by the size cap. -/
def diffBoundary : String := "\ndiff --git "

/-- Downward scan of `str.rfind`: the greatest `j ≤ n` at which `nd` occurs
in `t`, if any. -/
def rfindAux (t nd : List Char) : Nat → Option Nat
  | 0 => if nd.isPrefixOf t then some 0 else none
  | i + 1 =>
      if nd.isPrefixOf (t.drop (i + 1)) then some (i + 1) else rfindAux t nd i

/-- Python `t.rfind(nd)`: position of the last occurrence (`none` for -1). -/
def pyRfind (t nd : List Char) : Option Nat :=
  rfindAux t nd t.length

/-- Does the boundary marker occur at position `i` of `t`? -/
def boundaryAt (t : List Char) (i : Nat) : Bool :=
  diffBoundary.data.isPrefixOf (t.drop i)

/-- The size cap of `_review_diff_internal` (engine.py 188-198): when the
diff exceeds `max_diff_size`, cut at the cap, then back up to the last
`"\ndiff --git "` boundary — but only when `rfind` returned a strictly
positive index (`last_boundary > 0`). -/
def truncate_diff (diff_text : String) (max_diff_size : Nat) : String :=
  if pyLen diff_text > max_diff_size then
    match pyRfind (pyTake diff_text max_diff_size).data diffBoundary.data with
    | some i =>
        if 0 < i then pyTake (pyTake diff_text max_diff_size) i
        else pyTake diff_text max_diff_size
    | none => pyTake diff_text max_diff_size
  else diff_text

/-- Modelled from the claim's wording (C6): truncate at the last
`"\ndiff --git "` boundary within the first `max_diff_size` characters
whenever such a boundary exists (including index 0); only when no boundary
exists truncate at exactly `max_diff_size` characters. -/
def truncate_diff_claimed (diff_text : String) (max_diff_size : Nat) : String :=
  if pyLen diff_text > max_diff_size then
    match pyRfind (pyTake diff_text max_diff_size).data diffBoundary.data with
    | some i => pyTake (pyTake diff_text max_diff_size) i
    | none => pyTake diff_text max_diff_size
  else diff_text

/-! ## Remaining data model (src/mira/models.py) -/

/-- `PRInfo` (models.py 259-270). -/
structure PRInfo where
  title : String
  description : String
  base_branch : String
  head_branch : String
  url : String
  number : Int
  owner : String
  repo : String
deriving DecidableEq, Repr

/-- `UnresolvedThread` (models.py 273-281). -/
structure UnresolvedThread where
  thread_id : String
  path : String
  line : Int
  body : String
  is_outdated : Bool := false
deriving DecidableEq, Repr

/-- `ThreadDecision` (models.py 235-243). -/
structure ThreadDecision where
  thread_id : String
  path : String
  line : Int
  body : String
  fixed : Bool
deriving DecidableEq, Repr

/-- `WalkthroughEffort` (models.py 130-136). -/
structure WalkthroughEffort where
  level : Int
  label : String
  minutes : Int
deriving DecidableEq, Repr

/-- `WalkthroughFileEntry` (models.py 139-146). -/
structure WalkthroughFileEntry where
  path : String
  change_type : FileChangeType
  description : String
  group : String := ""
deriving DecidableEq, Repr

/-- `WalkthroughResult` (models.py 149-156; its `to_markdown` rendering is
an abstracted stage). -/
structure WalkthroughResult where
  summary : String := ""
  file_changes : List WalkthroughFileEntry := []
  effort : Option WalkthroughEffort := none
  sequence_diagram : Option String := none
deriving DecidableEq, Repr

/-- `ReviewResult` (models.py 246-256).  `token_usage` is the usage dict of
the LLM client, modelled as an association list. -/
structure ReviewResult where
  comments : List ReviewComment := []
  summary : String := ""
  reviewed_files : Nat := 0
  skipped_reason : Option String := none
  token_usage : List (String × Int) := []
  walkthrough : Option WalkthroughResult := none
  thread_decisions : List ThreadDecision := []
deriving DecidableEq, Repr

/-- `build_review_stats` (models.py 103-111): counts per severity in an
insertion-ordered dict. -/
def bumpCount : List (Severity × Nat) → Severity → List (Severity × Nat)
  | [], s => [(s, 1)]
  | (k, n) :: rest, s =>
      if k = s then (k, n + 1) :: rest else (k, n) :: bumpCount rest s

/-- `build_review_stats` (models.py 103-111). -/
def build_review_stats (comments : List ReviewComment) : List (Severity × Nat) :=
  comments.foldl (fun acc c => bumpCount acc c.severity) []

/-- The walkthrough upsert marker (models.py 8). -/
def walkthroughMarker : String := "<!-- mira-walkthrough -->"

/-! ## Configuration (src/mira/config.py) -/

/-- `LLMConfig` (config.py 17-22). -/
structure LLMConfig where
  model : String := "openai/gpt-4o"
  fallback_model : Option String := none
  temperature : Rat := 2/10
  max_tokens : Int := 4096
  max_context_tokens : Int := 120000
deriving Repr

/-- `ReviewConfig` (config.py 61-67). -/
structure ReviewConfig where
  context_lines : Int := 3
  max_diff_size : Nat := 50000
  include_summary : Bool := true
  focus_only_on_problems : Bool := false
  walkthrough : Bool := true
  walkthrough_sequence_diagram : Bool := true
deriving Repr

/-- `MiraConfig` (config.py 74-78); the provider section only names the
provider type and is irrelevant here. -/
structure MiraConfig where
  llm : LLMConfig := {}
  filter : FilterConfig := {}
  review : ReviewConfig := {}
deriving Repr

/-! ## Engine orchestration model (src/mira/core/engine.py)

The engine is embedded as a trace-building monad: every suspension point
(LLM call, provider call) appends an event to the trace and consults an
oracle.  Oracles receive the trace so far, so any behaviour of the real
collaborators — including failures — corresponds to some oracle.
-/

/-- A chat message (`{"role": ..., "content": ...}`). -/
structure ChatMessage where
  role : String
  content : String
deriving DecidableEq, Repr

/-- Error kinds of the embedded engine, mirroring the exception classes of
src/mira/exceptions.py plus Python's built-in `TypeError`. -/
inductive EngineErr where
  | typeErr
  | llmErr
  | responseParseErr
  | diffParseErr
  | providerErr
  | otherErr
deriving DecidableEq, Repr

/-- Observable calls to external collaborators. -/
inductive EngineEvent where
  | llmComplete (messages : List ChatMessage) (json_mode : Bool)
  | getPrInfo (url : String)
  | getPrDiff
  | getFileContent (path ref : String)
  | getUnresolvedBotThreads (bot_login : String)
  | resolveThreadsCall (thread_ids : List String)
  | postReviewCall
  | postCommentCall (body : String)
  | findBotCommentCall (marker : String)
  | updateCommentCall (comment_id : Int) (body : String)
deriving DecidableEq, Repr

/-- The engine monad: a computation threads the event trace and may fail;
the trace of calls made before a failure is preserved. -/
def EngineM (α : Type) : Type :=
  List EngineEvent → Except EngineErr α × List EngineEvent

instance : Monad EngineM where
  pure a := fun t => (.ok a, t)
  bind x f := fun t =>
    match x t with
    | (.ok a, t') => f a t'
    | (.error e, t') => (.error e, t')

/-- Record an event and consult an oracle on the extended trace. -/
def emitCall {α : Type} (ev : EngineEvent)
    (f : List EngineEvent → Except EngineErr α) : EngineM α :=
  fun t => (f (t ++ [ev]), t ++ [ev])

/-- Raise an error. -/
def throwErr {α : Type} (e : EngineErr) : EngineM α :=
  fun t => (.error e, t)

/-- Python `except Exception`: catch any error. -/
def catchAll {α : Type} (x : EngineM α) (h : EngineErr → EngineM α) : EngineM α :=
  fun t =>
    match x t with
    | (.ok a, t') => (.ok a, t')
    | (.error e, t') => h e t'

/-- `except ResponseParseError` (engine.py 275): catch only that error. -/
def catchResponseParse {α : Type} (x : EngineM α) (h : EngineErr → EngineM α) : EngineM α :=
  fun t =>
    match x t with
    | (.ok a, t') => (.ok a, t')
    | (.error e, t') =>
        if e = .responseParseErr then h e t' else (.error e, t')

/-- Read the trace so far (used to model the LLM client's accumulated
usage counters). -/
def getTrace : EngineM (List EngineEvent) :=
  fun t => (.ok t, t)

/-- The LLM client as seen by the engine (src/mira/llm/provider.py):
`complete` may return a response or fail (LLMError after retries and
fallback), `count_tokens` is total, `usage` reads the accumulated counters.
Oracle functions receive the trace so far, so they can model any
collaborator behaviour. -/
structure LLMOracle where
  complete : List ChatMessage → Bool → List EngineEvent → Except EngineErr String
  count_tokens : String → Int
  usage : List EngineEvent → List (String × Int)

/-- The hosting-provider contract the engine consumes
(src/mira/providers/base.py). -/
structure ProviderOracle where
  get_pr_info : String → List EngineEvent → Except EngineErr PRInfo
  get_pr_diff : PRInfo → List EngineEvent → Except EngineErr String
  get_file_content : PRInfo → String → String → List EngineEvent → Except EngineErr String
  get_unresolved_bot_threads :
    PRInfo → String → List EngineEvent → Except EngineErr (List UnresolvedThread)
  resolve_threads : PRInfo → List String → List EngineEvent → Except EngineErr Nat
  post_review : PRInfo → ReviewResult → List EngineEvent → Except EngineErr Unit
  post_comment : PRInfo → String → List EngineEvent → Except EngineErr Unit
  find_bot_comment : PRInfo → String → List EngineEvent → Except EngineErr (Option Int)
  update_comment : PRInfo → Int → String → List EngineEvent → Except EngineErr Unit

/-! ## Diff parser (src/mira/core/diff_parser.py)

The `unidiff` library is external; its parsed representation is the
`RawPatchedFile` record and the library itself is an oracle that either
yields the parsed files or fails (any failure becomes `DiffParseError`).
-/

/-- One hunk as exposed by `unidiff` (`source_start`, …, and `str(hunk)`). -/
structure RawHunk where
  source_start : Int
  source_length : Int
  target_start : Int
  target_length : Int
  text : String
deriving DecidableEq, Repr

/-- One patched file as exposed by `unidiff`. -/
structure RawPatchedFile where
  path : String
  is_added_file : Bool
  is_removed_file : Bool
  is_rename : Bool
  source_file : Option String
  is_binary_file : Bool
  added : Int
  removed : Int
  hunks : List RawHunk
deriving DecidableEq, Repr

/-- Python `s.endswith(suffix)`. -/
def pyEndsWith (s suffix : String) : Bool :=
  suffix.data.isSuffixOf s.data

/-- `_EXTENSION_LANGUAGE_MAP` (diff_parser.py 10-56), in source order. -/
def extensionLanguageTable : List (String × String) :=
  [ (".py", "python"), (".js", "javascript"), (".ts", "typescript")
  , (".tsx", "typescript"), (".jsx", "javascript"), (".rb", "ruby")
  , (".go", "go"), (".rs", "rust"), (".java", "java"), (".kt", "kotlin")
  , (".kts", "kotlin"), (".cs", "csharp"), (".cpp", "cpp"), (".cc", "cpp")
  , (".c", "c"), (".h", "c"), (".hpp", "cpp"), (".swift", "swift")
  , (".php", "php"), (".scala", "scala"), (".sh", "bash"), (".bash", "bash")
  , (".zsh", "zsh"), (".yml", "yaml"), (".yaml", "yaml"), (".json", "json")
  , (".toml", "toml"), (".xml", "xml"), (".html", "html"), (".css", "css")
  , (".scss", "scss"), (".sql", "sql"), (".md", "markdown"), (".r", "r")
  , (".dart", "dart"), (".lua", "lua"), (".ex", "elixir"), (".exs", "elixir")
  , (".erl", "erlang"), (".hs", "haskell"), (".ml", "ocaml")
  , (".clj", "clojure"), (".vim", "vim"), (".tf", "terraform")
  , (".proto", "protobuf")
  ]

/-- `_detect_language` (diff_parser.py 59-64): first matching extension in
dict insertion order, else empty string. -/
def detect_language (path : String) : String :=
  match extensionLanguageTable.find? (fun p => pyEndsWith path p.1) with
  | some p => p.2
  | none => ""

/-- `_determine_change_type` (diff_parser.py 67-74). -/
def determine_change_type (pf : RawPatchedFile) : FileChangeType :=
  if pf.is_added_file then .added
  else if pf.is_removed_file then .deleted
  else if pf.is_rename then .renamed
  else .modified

/-- Strip a leading `"a/"` from a rename source path (diff_parser.py 106-108;
the emptiness guard coincides with the prefix test). -/
def stripRenameSource (op : String) : String :=
  if ("a/" : String).data.isPrefixOf op.data then ⟨op.data.drop 2⟩ else op

/-- The per-file conversion of `parse_diff` (diff_parser.py 88-121). -/
def convertPatchedFile (pf : RawPatchedFile) : FileDiff :=
  { path := pf.path
  , change_type := determine_change_type pf
  , hunks := pf.hunks.map (fun h =>
      { source_start := h.source_start
      , source_length := h.source_length
      , target_start := h.target_start
      , target_length := h.target_length
      , content := h.text })
  , language := detect_language pf.path
  , old_path :=
      if determine_change_type pf = .renamed then pf.source_file.map stripRenameSource
      else none
  , is_binary := pf.is_binary_file
  , added_lines := pf.added
  , deleted_lines := pf.removed
  }

/-- `parse_diff` (diff_parser.py 77-123): empty or whitespace-only input is
an empty `PatchSet`; a `unidiff` failure is a `DiffParseError`. -/
def parse_diff (unidiff_parse : String → Except Unit (List RawPatchedFile))
    (diff_text : String) : Except EngineErr PatchSet :=
  if pyStrip diff_text = "" then .ok {}
  else
    match unidiff_parse diff_text with
    | .error _ => .error .diffParseErr
    | .ok pfs => .ok { files := pfs.map convertPatchedFile }

/-! ## Hunk merging (src/mira/core/context.py `expand_context`) -/

/-- Stable ascending insertion by `target_start` (Python `sorted` with a
key is stable). -/
def insertHunkAsc (h : HunkInfo) : List HunkInfo → List HunkInfo
  | [] => [h]
  | y :: ys =>
      if y.target_start ≤ h.target_start then y :: insertHunkAsc h ys else h :: y :: ys

/-- Stable sort of hunks by `target_start` (context.py 22). -/
def sortHunks : List HunkInfo → List HunkInfo
  | [] => []
  | h :: rest => insertHunkAsc h (sortHunks rest)

/-- The merging walk of `expand_context` (context.py 25-43), carrying the
current last merged hunk. -/
def mergeHunksFold (context_lines : Int) : HunkInfo → List HunkInfo → List HunkInfo
  | prev, [] => [prev]
  | prev, hunk :: rest =>
      if hunk.target_start - context_lines ≤
          prev.target_start + prev.target_length + context_lines then
        mergeHunksFold context_lines
          { source_start := prev.source_start
          , source_length := prev.source_length + hunk.source_length
          , target_start := prev.target_start
          , target_length :=
              max (prev.target_start + prev.target_length)
                  (hunk.target_start + hunk.target_length) - prev.target_start
          , content := prev.content ++ "\n" ++ hunk.content } rest
      else prev :: mergeHunksFold context_lines hunk rest

/-- `expand_context` (context.py 10-47). -/
def expand_context (files : List FileDiff) (context_lines : Int) : List FileDiff :=
  files.map (fun f =>
    if f.hunks.length ≤ 1 then f
    else
      match sortHunks f.hunks with
      | [] => f
      | h :: rest => { f with hunks := mergeHunksFold context_lines h rest })

/-! ## Verify-fixes context building (engine.py 42-82, 319-344) -/

/-- Python `str.splitlines()` restricted to `\n` separators: a trailing
newline does not produce a final empty line. -/
def pySplitLines (s : String) : List String :=
  if s = "" then []
  else
    if (s.splitOn "\n").getLast? = some "" then (s.splitOn "\n").dropLast
    else s.splitOn "\n"

/-- Right-align a string in a field of the given width with spaces
(`f"{x:>{w}}"`). -/
def padLeft (s : String) (w : Nat) : String :=
  ⟨List.replicate (w - s.data.length) ' '⟩ ++ s

/-- `_number_lines` (engine.py 42-46). -/
def number_lines (content : String) : String :=
  String.intercalate "\n"
    ((pySplitLines content).enum.map (fun p =>
      padLeft (toString (p.1 + 1)) ((toString (pySplitLines content).length).length)
        ++ "| " ++ p.2))

/-- Stable ascending insertion of `(start, end)` ranges in Python tuple
order. -/
def insertRangeAsc (p : Int × Int) : List (Int × Int) → List (Int × Int)
  | [] => [p]
  | q :: qs =>
      if q.1 < p.1 ∨ (q.1 = p.1 ∧ q.2 ≤ p.2) then q :: insertRangeAsc p qs
      else p :: q :: qs

/-- `ranges.sort()` (engine.py 68). -/
def sortRanges : List (Int × Int) → List (Int × Int)
  | [] => []
  | p :: ps => insertRangeAsc p (sortRanges ps)

/-- The overlapping-range merge of `_extract_sections` (engine.py 69-75). -/
def mergeRanges : Int × Int → List (Int × Int) → List (Int × Int)
  | prev, [] => [prev]
  | prev, (s, e) :: rest =>
      if s ≤ prev.2 then mergeRanges (prev.1, max prev.2 e) rest
      else prev :: mergeRanges (s, e) rest

/-- Render one merged range with original line numbers (engine.py 78-81). -/
def renderRange (lines : List String) (width : Nat) (p : Int × Int) : String :=
  String.intercalate "\n"
    ((List.range (p.2 - p.1).toNat).map (fun k =>
      padLeft (toString ((p.1 + (k : Int)).toNat + 1)) width
        ++ "| " ++ lines.getD (p.1 + (k : Int)).toNat ""))

/-- `_extract_sections` (engine.py 49-82).  (Call sites guarantee a
non-empty thread list; on an empty one the model returns "".) -/
def extract_sections (lines : List String) (threads : List UnresolvedThread)
    (context_lines : Int) : String :=
  match sortRanges (threads.map (fun t =>
      (max 0 (t.line - 1 - context_lines),
       min (lines.length : Int) (t.line - 1 + context_lines + 1)))) with
  | [] => ""
  | r :: rest =>
      String.intercalate "\n...\n"
        ((mergeRanges r rest).map
          (renderRange lines ((toString lines.length).length)))

/-- Insertion-ordered grouping of threads by path (engine.py 327-329). -/
def addThreadToGroups (t : UnresolvedThread) :
    List (String × List UnresolvedThread) → List (String × List UnresolvedThread)
  | [] => [(t.path, [t])]
  | (p, ts) :: rest =>
      if p = t.path then (p, ts ++ [t]) :: rest
      else (p, ts) :: addThreadToGroups t rest

/-- `threads_by_path` (engine.py 327-329). -/
def groupThreadsByPath (threads : List UnresolvedThread) :
    List (String × List UnresolvedThread) :=
  threads.foldl (fun acc t => addThreadToGroups t acc) []

/-- Pure collaborator stages the engine composes.  Prompt builders render
Jinja templates (external), the response parsers are `json` + pydantic
machinery (external), `filter_files` lives in `mira.core.file_filter`
which is not among the sources, and `to_markdown` is pure Markdown
rendering no claim concerns.  All theorems below quantify over these, so
they hold in particular for the real implementations. -/
structure Stages where
  unidiff_parse : String → Except Unit (List RawPatchedFile)
  filter_files : List FileDiff → FilterConfig → List FileDiff
  build_review_prompt :
    List FileDiff → MiraConfig → String → String → Option (List UnresolvedThread) →
      List ChatMessage
  build_walkthrough_prompt : List FileDiff → MiraConfig → String → String → List ChatMessage
  build_verify_fixes_prompt :
    List (String × String × List UnresolvedThread) → List ChatMessage
  parse_llm_response : String → Except Unit LLMReviewResponse
  parse_walkthrough : String → Except Unit WalkthroughResult
  parse_verify_fixes_response : String → List String
  walkthrough_markdown : WalkthroughResult → String → List (Severity × Nat) → String

/-- Issue one `complete` call: record the event, consult the oracle. -/
def llmCompleteCall (llm : LLMOracle) (messages : List ChatMessage)
    (json_mode : Bool) : EngineM String :=
  emitCall (.llmComplete messages json_mode) (llm.complete messages json_mode)

/-- Python keyword binding: a call without `**kwargs` binds only when every
keyword argument names a declared parameter; otherwise it raises
`TypeError`. -/
def pyCallBindsOk (params kwargs : List String) : Bool :=
  kwargs.all (fun k => params.contains k)

/-- The declared parameters of `LLMProvider.complete`
(src/mira/llm/provider.py 60-64): `messages` and `json_mode` only — the
method takes no `temperature` parameter. -/
def completeParamNames : List String := ["messages", "json_mode"]

/-- The keyword arguments `_verify_fixes` passes to `complete`
(engine.py 393): `json_mode=True, temperature=0.0`. -/
def verifyFixesCompleteKwargs : List String := ["json_mode", "temperature"]

/-- `_verify_fixes` (engine.py 387-395).  The call
`self.llm.complete(prompt, json_mode=True, temperature=0.0)` is modelled
with Python call semantics: it proceeds only if the keyword arguments bind
against `complete`'s declared parameters, else it raises `TypeError`. -/
def verifyFixes (st : Stages) (llm : LLMOracle)
    (file_groups : List (String × String × List UnresolvedThread)) :
    EngineM (List String) :=
  if pyCallBindsOk completeParamNames verifyFixesCompleteKwargs then do
    let response ← llmCompleteCall llm (st.build_verify_fixes_prompt file_groups) true
    pure (st.parse_verify_fixes_response response)
  else
    throwErr .typeErr

/-- `_resolve_verified_threads` (engine.py 297-385). -/
def resolveVerifiedThreads (st : Stages) (llm : LLMOracle) (prov : ProviderOracle)
    (bot_name : String) (dry_run : Bool) (pr_info : PRInfo) :
    EngineM (Nat × Nat × List UnresolvedThread × List ThreadDecision) := do
  let threads ← emitCall (.getUnresolvedBotThreads bot_name)
    (prov.get_unresolved_bot_threads pr_info bot_name)
  if threads = [] then
    pure (0, 0, [], [])
  else do
    let file_contents ← threads.foldlM
      (fun (acc : List (String × String)) t =>
        if (acc.map (fun p => p.1)).contains t.path then pure acc
        else do
          let content ← emitCall (.getFileContent t.path pr_info.head_branch)
            (prov.get_file_content pr_info t.path pr_info.head_branch)
          pure (acc ++ [(t.path, content)])) []
    let file_groups := (groupThreadsByPath threads).map (fun pg =>
      if (pySplitLines (dictGetD file_contents pg.1 "")).length ≤ 500 then
        (pg.1, number_lines (dictGetD file_contents pg.1 ""), pg.2)
      else if pg.2.any (fun t => t.line ≤ 0) then
        (pg.1, number_lines (dictGetD file_contents pg.1 ""), pg.2)
      else
        (pg.1, extract_sections (pySplitLines (dictGetD file_contents pg.1 "")) pg.2 50, pg.2))
    let verified_ids ← verifyFixes st llm file_groups
    let decisions := threads.map (fun t =>
      ThreadDecision.mk t.thread_id t.path t.line t.body (verified_ids.contains t.thread_id))
    let resolved ←
      (if verified_ids ≠ [] then
        (if dry_run then pure verified_ids.length
         else emitCall (.resolveThreadsCall verified_ids)
           (prov.resolve_threads pr_info verified_ids))
       else pure 0)
    pure (threads.length, resolved,
      threads.filter (fun t => !(verified_ids.contains t.thread_id)), decisions)

/-- One chunk iteration of `_review_diff_internal` (engine.py 247-276);
only `ResponseParseError` is caught (log-and-skip), other errors
propagate.  State is `(all_comments, summaries, combined_existing)`. -/
def reviewChunkStep (cfg : MiraConfig) (st : Stages) (llm : LLMOracle)
    (pr_title pr_description : String) (valid_paths : List String)
    (state : List ReviewComment × List String × List UnresolvedThread)
    (ichunk : Nat × ReviewChunk) :
    EngineM (List ReviewComment × List String × List UnresolvedThread) :=
  catchResponseParse
    (do
      let raw ← llmCompleteCall llm
        (st.build_review_prompt ichunk.2.files cfg pr_title pr_description
          (if state.2.2 = [] then none else some state.2.2)) true
      let parsed ←
        (match st.parse_llm_response raw with
         | .ok p => pure p
         | .error _ => throwErr .responseParseErr)
      let comments := convert_to_review_comments parsed (some valid_paths) ichunk.2.files
      pure (state.1 ++ comments,
        state.2.1 ++ (if parsed.summary ≠ "" then [parsed.summary] else []),
        state.2.2 ++ comments.map (fun c =>
          UnresolvedThread.mk
            ("_pending_" ++ toString ichunk.1 ++ "_" ++ c.path ++ "_" ++ toString c.line)
            c.path c.line (c.title ++ ": " ++ c.body) false)))
    (fun _ => pure state)

/-- `_review_diff_internal` (engine.py 180-295). -/
def reviewDiffInternal (cfg : MiraConfig) (st : Stages) (llm : LLMOracle)
    (diff_text pr_title pr_description : String)
    (existing_comments : Option (List UnresolvedThread)) : EngineM ReviewResult := do
  let patch ←
    (match parse_diff st.unidiff_parse (truncate_diff diff_text cfg.review.max_diff_size) with
     | .ok p => pure p
     | .error e => throwErr e)
  if patch.files = [] then
    pure { summary := "No files to review." }
  else do
    let filtered := st.filter_files patch.files cfg.filter
    if filtered = [] then
      pure { summary := "All files were filtered out."
           , skipped_reason := some "All files matched exclusion rules" }
    else do
      let walkthrough ←
        (if cfg.review.walkthrough then
          catchAll
            (do
              let wt_raw ← llmCompleteCall llm
                (st.build_walkthrough_prompt filtered cfg pr_title pr_description) true
              match st.parse_walkthrough wt_raw with
              | .ok w => pure (some w)
              | .error _ => throwErr .responseParseErr)
            (fun _ => pure none)
         else pure none)
      let chunks := chunk_files (expand_context filtered cfg.review.context_lines)
        cfg.llm.max_context_tokens (some llm.count_tokens)
      let res ← chunks.enum.foldlM
        (reviewChunkStep cfg st llm pr_title pr_description (filtered.map (fun f => f.path)))
        ([], [],
          match existing_comments with
          | some l => l
          | none => [])
      let trace ← getTrace
      pure
        { comments := filter_noise (res.1.map classify_severity) cfg.filter
        , summary :=
            if cfg.review.include_summary then
              (if res.2.1 ≠ [] then String.intercalate " " res.2.1 else "No issues found.")
            else ""
        , reviewed_files := filtered.length
        , token_usage := llm.usage trace
        , walkthrough := walkthrough }

/-- The walkthrough upsert of `review_pr` (engine.py 140-151): find the
marked comment, update it in place or create it; failures are logged and
swallowed. -/
def upsertWalkthrough (st : Stages) (prov : ProviderOracle) (pr_info : PRInfo)
    (bot_name : String) (wt : WalkthroughResult) (comments : List ReviewComment) :
    EngineM Unit :=
  catchAll
    (do
      let existing_id ← emitCall (.findBotCommentCall walkthroughMarker)
        (prov.find_bot_comment pr_info walkthroughMarker)
      match existing_id with
      | some cid =>
          emitCall
            (.updateCommentCall cid
              (st.walkthrough_markdown wt bot_name (build_review_stats comments)))
            (prov.update_comment pr_info cid
              (st.walkthrough_markdown wt bot_name (build_review_stats comments)))
      | none =>
          emitCall
            (.postCommentCall
              (st.walkthrough_markdown wt bot_name (build_review_stats comments)))
            (prov.post_comment pr_info
              (st.walkthrough_markdown wt bot_name (build_review_stats comments))))
    (fun _ => pure ())

/-- `review_pr` (engine.py 102-174). -/
def review_pr (cfg : MiraConfig) (st : Stages) (llm : LLMOracle) (prov : ProviderOracle)
    (bot_name : String) (dry_run : Bool) (pr_url : String) : EngineM ReviewResult := do
  let pr_info ← emitCall (.getPrInfo pr_url) (prov.get_pr_info pr_url)
  let resolution ←
    (if bot_name ≠ "" then
      catchAll (resolveVerifiedThreads st llm prov bot_name dry_run pr_info)
        (fun _ => pure (0, 0, [], []))
     else pure (0, 0, [], []))
  let diff_text ← emitCall .getPrDiff (prov.get_pr_diff pr_info)
  let result ← reviewDiffInternal cfg st llm diff_text pr_info.title pr_info.description
    (if resolution.2.2.1 = [] then none else some resolution.2.2.1)
  let _ ←
    (match result.walkthrough with
     | some wt =>
        if dry_run then pure ()
        else upsertWalkthrough st prov pr_info bot_name wt result.comments
     | none => pure ())
  let _ ←
    (if result.comments ≠ [] then
      (if dry_run then pure ()
       else emitCall .postReviewCall (prov.post_review pr_info result))
     else pure ())
  pure { result with thread_decisions := resolution.2.2.2 }

/-- Oracle stages whose collaborators all refuse, for concrete witnesses. -/
def trivialStages : Stages where
  unidiff_parse := fun _ => .error ()
  filter_files := fun fs _ => fs
  build_review_prompt := fun _ _ _ _ _ => []
  build_walkthrough_prompt := fun _ _ _ _ => []
  build_verify_fixes_prompt := fun _ => []
  parse_llm_response := fun _ => .error ()
  parse_walkthrough := fun _ => .error ()
  parse_verify_fixes_response := fun _ => []
  walkthrough_markdown := fun _ _ _ => ""

/-- An LLM oracle that always fails, for concrete witnesses. -/
def trivialLLM : LLMOracle where
  complete := fun _ _ _ => .error .llmErr
  count_tokens := fun _ => 0
  usage := fun _ => []

/-- Events that do not write to the hosting provider: everything except
`resolve_threads`, `post_review`, `post_comment`, `update_comment`. -/
def readOnlyEvent : EngineEvent → Bool
  | .resolveThreadsCall _ => false
  | .postReviewCall => false
  | .postCommentCall _ => false
  | .updateCommentCall _ _ => false
  | _ => true

/-- A computation preserves read-only-ness of the trace: if no write event
occurred yet, none occurs after it runs (even when it fails). -/
def PreservesReadOnly {α : Type} (x : EngineM α) : Prop :=
  ∀ t, t.all readOnlyEvent = true → ((x t).2).all readOnlyEvent = true

/-- Claim C10: an input whose normalised form is not a recognised alias maps
to SUGGESTION; `from_str` never fails.  Stated over the normalised key not
being a key of the alias table. -/
theorem from_str_unknown_defaults_to_suggestion (value : String)
    (h : ∀ p ∈ severityAliasTable, p.1 ≠ pyLower (pyStrip value)) :
    Severity.from_str value = Severity.suggestion := by
  unfold Severity.from_str
  have hfind : severityAliasTable.find? (fun p => p.1 = pyLower (pyStrip value)) = none := by
    apply List.find?_eq_none.mpr
    intro p hp
    simp only [decide_eq_true_eq]
    exact h p hp
  simp [hfind]

/-- Witness for C10 at the concrete unrecognised input `" Unknown "`. -/
theorem from_str_unknown_witness :
    Severity.from_str " Unknown " = Severity.suggestion :=
  from_str_unknown_defaults_to_suggestion " Unknown " (by decide)

/-- Claim C4: on the non-exploitable path, a comment that is categorised
"security" or whose text contains a security-smell keyword comes out of
`classify_severity` with severity exactly WARNING (severities below WARNING
are raised, BLOCKER is lowered, WARNING is kept), hence never strictly above
WARNING. -/
theorem security_smell_caps_at_warning (comment : ReviewComment)
    (hne : isExploitableText (classifyText comment) = false)
    (hsec : comment.category = "security" ∨ hasSecuritySmell (classifyText comment) = true) :
    (classify_severity comment).severity = Severity.warning ∧
      ¬ Severity.warning < (classify_severity comment).severity := by
  have hcap : (classify_severity comment).severity = Severity.warning := by
    unfold classify_severity
    have h1 : ¬ (isExploitableText (classifyText comment) = true) := by
      rw [hne]; simp
    rw [if_neg h1]
    have hsec' : (comment.category = "security" ∨ hasSecuritySmell (classifyText comment) = true) := hsec
    rw [if_pos hsec']
    rcases Nat.lt_trichotomy comment.severity.val (Severity.warning).val with h | h | h
    · have h' : comment.severity < Severity.warning := h
      rw [if_pos h']; rfl
    · have hnotlt : ¬ comment.severity < Severity.warning := by
        show ¬ comment.severity.val < Severity.warning.val
        omega
      have hnotgt : ¬ Severity.warning < comment.severity := by
        show ¬ Severity.warning.val < comment.severity.val
        omega
      rw [if_neg hnotlt, if_neg hnotgt]
      cases c : comment.severity <;> simp_all [Severity.val]
    · have hnotlt : ¬ comment.severity < Severity.warning := by
        show ¬ comment.severity.val < Severity.warning.val
        omega
      have h' : Severity.warning < comment.severity := h
      rw [if_neg hnotlt, if_pos h']; rfl
  refine ⟨hcap, ?_⟩
  rw [hcap]
  show ¬ Severity.warning.val < Severity.warning.val
  omega

/-- Witness for C4: the spec's seed scenario (BLOCKER, category "security",
title "Hardcoded API key in source") is classified down to WARNING. -/
theorem security_smell_caps_at_warning_witness :
    (classify_severity
      { path := "test.py", line := 1, end_line := none,
        severity := .blocker, category := "security",
        title := "Hardcoded API key in source", body := "",
        confidence := 9/10 }).severity = Severity.warning ∧
      ¬ Severity.warning < (classify_severity
      { path := "test.py", line := 1, end_line := none,
        severity := .blocker, category := "security",
        title := "Hardcoded API key in source", body := "",
        confidence := 9/10 }).severity :=
  security_smell_caps_at_warning
    { path := "test.py", line := 1, end_line := none,
      severity := .blocker, category := "security",
      title := "Hardcoded API key in source", body := "",
      confidence := 9/10 }
    (by decide) (Or.inl rfl)

/-- Claim C9 (code bug): `_with_severity` forgets `agent_prompt`.  On the
spec's own security-smell scenario extended with an agent prompt, the
classifier rewrites the severity and the returned comment has lost the
`agent_prompt` field, contradicting "copy-with-severity; no other field is
altered or lost". -/
theorem classify_severity_drops_agent_prompt :
    let input : ReviewComment :=
      { path := "test.py", line := 1, end_line := none,
        severity := .blocker, category := "security",
        title := "Hardcoded API key in source", body := "",
        confidence := 9/10, suggestion := none,
        agent_prompt := some "Move the key into an environment variable" }
    (classify_severity input).agent_prompt = none ∧
      (classify_severity input).agent_prompt ≠ input.agent_prompt := by
  constructor
  · decide
  · decide

/-- Jaccard similarity is symmetric. -/
theorem jaccard_symm (a b : String) : jaccard a b = jaccard b a := by
  unfold jaccard
  by_cases h : wordSet a = ∅ ∨ wordSet b = ∅
  · rw [if_pos h, if_pos (Or.symm h)]
  · rw [if_neg h, if_neg (fun hc => h (Or.symm hc))]
    rw [Finset.inter_comm, Finset.union_comm]

/-- Line-overlap is symmetric. -/
theorem linesOverlap_symm (a b : ReviewComment) : linesOverlap a b = linesOverlap b a := by
  unfold linesOverlap
  by_cases h : a.path = b.path
  · have n1 : ¬(a.path ≠ b.path) := by simp [h]
    have n2 : ¬(b.path ≠ a.path) := by simp [h]
    rw [if_neg n1, if_neg n2]
    simp [and_comm]
  · have p1 : a.path ≠ b.path := h
    have p2 : b.path ≠ a.path := fun hc => h hc.symm
    rw [if_pos p1, if_pos p2]

/-- The composite duplicate test is symmetric. -/
theorem isDuplicate_symm (a b : ReviewComment) (th : Rat) :
    isDuplicate a b th = isDuplicate b a th := by
  unfold isDuplicate
  rw [jaccard_symm b.title a.title, linesOverlap_symm b a]
  by_cases hp : a.path = b.path
  · have n1 : ¬(a.path ≠ b.path) := by simp [hp]
    have n2 : ¬(b.path ≠ a.path) := by simp [hp]
    rw [if_neg n1, if_neg n2]
    by_cases hs : a.line = b.line ∧ effEnd a = effEnd b
    · have hs' : b.line = a.line ∧ effEnd b = effEnd a := ⟨hs.1.symm, hs.2.symm⟩
      rw [if_pos hs, if_pos hs']
    · have hs' : ¬(b.line = a.line ∧ effEnd b = effEnd a) :=
        fun hc => hs ⟨hc.1.symm, hc.2.symm⟩
      rw [if_neg hs, if_neg hs']
  · have p1 : a.path ≠ b.path := hp
    have p2 : b.path ≠ a.path := fun hc => hp hc.symm
    rw [if_pos p1, if_pos p2]

/-- The accumulator walk of `_deduplicate` preserves pairwise
non-duplication. -/
theorem dedupGo_pairwise (th : Rat) (rest : List ReviewComment) :
    ∀ acc : List ReviewComment,
      acc.Pairwise (fun x y => isDuplicate x y th = false) →
      (dedupGo th acc rest).Pairwise (fun x y => isDuplicate x y th = false) := by
  induction rest with
  | nil => intro acc hacc; exact hacc
  | cons c cs ih =>
      intro acc hacc
      unfold dedupGo
      by_cases hdup : acc.any (fun k => isDuplicate c k th) = true
      · rw [if_pos hdup]; exact ih acc hacc
      · rw [if_neg hdup]
        apply ih
        rw [List.pairwise_append]
        refine ⟨hacc, List.pairwise_singleton _ _, ?_⟩
        intro k hk b hb
        rw [List.mem_singleton] at hb
        subst hb
        rw [← isDuplicate_symm]
        have := List.any_eq_true.not.mp hdup
        push_neg at this
        have h2 := this k hk
        exact Bool.not_eq_true _ ▸ (by simpa using h2)

/-- Claim C3: after the noise filter, every pair of distinct retained
comments on the same path is neither on identical lines, nor overlapping
with title-Jaccard ≥ 0.2, nor title-similar with Jaccard ≥ 0.6. -/
theorem noise_filter_pairwise_non_duplicate
    (comments : List ReviewComment) (config : FilterConfig) :
    (filter_noise comments config).Pairwise (fun a b =>
      a.path = b.path →
        ¬(a.line = b.line ∧ effEnd a = effEnd b) ∧
        ¬(linesOverlap a b = true ∧ (0.2 : Rat) ≤ jaccard a.title b.title) ∧
        ¬((0.6 : Rat) ≤ jaccard a.title b.title)) := by
  have hd : (deduplicate
      (sortComments
        ((comments.filter (fun c => config.confidence_threshold ≤ c.confidence)).filter
          (fun c => Severity.from_str config.min_severity ≤ c.severity)))
      (0.6 : Rat)).Pairwise (fun x y => isDuplicate x y (0.6 : Rat) = false) :=
    dedupGo_pairwise _ _ [] (List.Pairwise.nil)
  have htake := hd.sublist (List.take_sublist config.max_comments _)
  refine htake.imp ?_
  intro a b hfalse hpath
  unfold isDuplicate at hfalse
  rw [if_neg (by simp [hpath])] at hfalse
  by_cases h1 : a.line = b.line ∧ effEnd a = effEnd b
  · rw [if_pos h1] at hfalse; exact absurd hfalse (by simp)
  · rw [if_neg h1] at hfalse
    by_cases h2 : linesOverlap a b ∧ (0.2 : Rat) ≤ jaccard a.title b.title
    · rw [if_pos h2] at hfalse; exact absurd hfalse (by simp)
    · rw [if_neg h2] at hfalse
      refine ⟨h1, ?_, by simpa using hfalse⟩
      intro hc
      exact h2 ⟨hc.1, hc.2⟩

/-- Removing an element that converts to `none` does not change the
converted list. -/
theorem filterMap_erase_of_none {α β : Type} [DecidableEq α]
    (f : α → Option β) (c : α) (hc : f c = none) :
    ∀ l : List α, (l.erase c).filterMap f = l.filterMap f := by
  intro l
  induction l with
  | nil => rfl
  | cons x xs ih =>
      by_cases hx : x = c
      · subst hx
        rw [List.erase_cons_head]
        rw [List.filterMap_cons, hc]
      · rw [List.erase_cons_tail (by simpa using hx)]
        rw [List.filterMap_cons, List.filterMap_cons, ih]

/-- Claim C2: when real diff files are supplied, a comment quoting
non-empty `existing_code` that does not occur (stripped) inside the
concatenated hunk contents of its file is dropped by
`convert_to_review_comments`; hence such a comment is kept only if its
quote occurs in the diff. -/
theorem existing_code_must_quote_diff
    (resp : LLMReviewResponse) (vp : Option (List String))
    (diff_files : List FileDiff) (c : LLMComment)
    (hdf : diff_files ≠ [])
    (hec : c.existing_code ≠ "")
    (hni : ¬ pyContains (dictGetD (buildHunkIndex diff_files) c.path "")
            (pyStrip c.existing_code) = true) :
    convertOne vp (buildHunkIndex diff_files) c = none ∧
      convert_to_review_comments resp vp diff_files =
        convert_to_review_comments { resp with comments := resp.comments.erase c }
          vp diff_files := by
  have hidx : buildHunkIndex diff_files ≠ [] := by
    unfold buildHunkIndex
    cases diff_files with
    | nil => exact absurd rfl hdf
    | cons a l => simp
  have hnone : convertOne vp (buildHunkIndex diff_files) c = none := by
    unfold convertOne
    by_cases h1 : (match vp with
      | some vps => decide (c.path ∉ vps)
      | none => false) = true
    · rw [if_pos h1]
    · rw [if_neg h1]
      by_cases h2 : c.line < 1
      · rw [if_pos h2]
      · rw [if_neg h2]
        by_cases h3 : pyTruthyOpt c.suggestion = true ∧ pyStrip c.body = ""
        · rw [if_pos h3]
        · rw [if_neg h3]
          rw [if_pos ⟨hec, hidx, hni⟩]
  refine ⟨hnone, ?_⟩
  unfold convert_to_review_comments
  exact (filterMap_erase_of_none _ c hnone resp.comments).symm

/-- Witness for C2: a concrete response quoting code that is absent from
the single diff file's hunks is dropped entirely. -/
theorem existing_code_must_quote_diff_witness :
    convertOne none
      (buildHunkIndex
        [{ path := "a.py", change_type := .modified,
           hunks := [⟨1, 1, 1, 1, "+x = 1"⟩] }])
      { path := "a.py", line := 3, existing_code := "y = 2" } = none ∧
      convert_to_review_comments
        { comments := [{ path := "a.py", line := 3, existing_code := "y = 2" }] }
        none
        [{ path := "a.py", change_type := .modified,
           hunks := [⟨1, 1, 1, 1, "+x = 1"⟩] }] =
      convert_to_review_comments
        { comments :=
            [({ path := "a.py", line := 3, existing_code := "y = 2" } : LLMComment)].erase
              { path := "a.py", line := 3, existing_code := "y = 2" } }
        none
        [{ path := "a.py", change_type := .modified,
           hunks := [⟨1, 1, 1, 1, "+x = 1"⟩] }] :=
  existing_code_must_quote_diff
    { comments := [{ path := "a.py", line := 3, existing_code := "y = 2" }] }
    none
    [{ path := "a.py", change_type := .modified,
       hunks := [⟨1, 1, 1, 1, "+x = 1"⟩] }]
    { path := "a.py", line := 3, existing_code := "y = 2" }
    (by decide) (by decide) (by decide)

/-- Cons unfolding for `chunkFilesOf`. -/
theorem chunkFilesOf_cons (c : ReviewChunk) (rest : List ReviewChunk) :
    chunkFilesOf (c :: rest) = c.files ++ chunkFilesOf rest := by
  unfold chunkFilesOf
  simp

/-- Append unfolding for `chunkFilesOf`. -/
theorem chunkFilesOf_append (a b : List ReviewChunk) :
    chunkFilesOf (a ++ b) = chunkFilesOf a ++ chunkFilesOf b := by
  unfold chunkFilesOf
  simp

/-- Stable insertion produces a permutation. -/
theorem insertEstDesc_perm (p : FileDiff × Int) (l : List (FileDiff × Int)) :
    (insertEstDesc p l).Perm (p :: l) := by
  induction l with
  | nil => exact List.Perm.refl _
  | cons q qs ih =>
      unfold insertEstDesc
      by_cases h : p.2 < q.2
      · rw [if_pos h]
        exact (ih.cons q).trans (List.Perm.swap p q qs)
      · rw [if_neg h]

/-- The descending sort is a permutation of its input. -/
theorem sortEstDesc_perm (l : List (FileDiff × Int)) : (sortEstDesc l).Perm l := by
  induction l with
  | nil => exact List.Perm.refl _
  | cons p ps ih =>
      exact (insertEstDesc_perm p (sortEstDesc ps)).trans (ih.cons p)

/-- First-fit placement adds exactly the placed file to the chunk contents. -/
theorem placeFirstFit_files (available : Int) (f : FileDiff) (est : Int)
    (chunks : List ReviewChunk) :
    (chunkFilesOf (placeFirstFit available f est chunks)).Perm (f :: chunkFilesOf chunks) := by
  induction chunks with
  | nil =>
      unfold placeFirstFit chunkFilesOf
      simp
  | cons ch rest ih =>
      unfold placeFirstFit
      by_cases h : ch.token_estimate + est ≤ available
      · rw [if_pos h]
        rw [chunkFilesOf_cons, chunkFilesOf_cons]
        show ((ch.files ++ [f]) ++ chunkFilesOf rest).Perm (f :: (ch.files ++ chunkFilesOf rest))
        rw [List.append_assoc]
        exact List.perm_middle
      · rw [if_neg h]
        rw [chunkFilesOf_cons, chunkFilesOf_cons]
        have step1 : (ch.files ++ chunkFilesOf (placeFirstFit available f est rest)).Perm
            (ch.files ++ (f :: chunkFilesOf rest)) :=
          List.Perm.append_left ch.files ih
        exact step1.trans List.perm_middle

/-- First-fit placement keeps every chunk within the budget, provided the
placed estimate fits an empty chunk. -/
theorem placeFirstFit_bound (available : Int) (f : FileDiff) (est : Int)
    (chunks : List ReviewChunk)
    (hb : ∀ c ∈ chunks, c.token_estimate ≤ available)
    (hest : est ≤ available) :
    ∀ c ∈ placeFirstFit available f est chunks, c.token_estimate ≤ available := by
  induction chunks with
  | nil =>
      intro c hc
      unfold placeFirstFit at hc
      simp only [List.mem_singleton] at hc
      subst hc
      exact hest
  | cons ch rest ih =>
      intro c hc
      unfold placeFirstFit at hc
      by_cases h : ch.token_estimate + est ≤ available
      · rw [if_pos h] at hc
        rcases List.mem_cons.mp hc with hc | hc
        · subst hc; exact h
        · exact hb c (List.mem_cons_of_mem ch hc)
      · rw [if_neg h] at hc
        rcases List.mem_cons.mp hc with hc | hc
        · rw [hc]; exact hb ch (List.mem_cons_self ch rest)
        · exact ih (fun d hd => hb d (List.mem_cons_of_mem ch hd)) c hc

/-- One chunking step adds exactly the pair's image to the chunk contents. -/
theorem chunkStep_files (available : Int) (chunks : List ReviewChunk)
    (p : FileDiff × Int) :
    (chunkFilesOf (chunkStep available chunks p)).Perm
      (chunkFilesOf chunks ++ [pairImage available p]) := by
  unfold chunkStep pairImage
  by_cases h : p.2 > available
  · rw [if_pos h, if_pos h, chunkFilesOf_append]
    unfold chunkFilesOf
    simp
  · rw [if_neg h, if_neg h]
    exact (placeFirstFit_files available p.1 p.2 chunks).trans
      (List.perm_append_singleton p.1 (chunkFilesOf chunks)).symm

/-- One chunking step keeps every chunk within the budget. -/
theorem chunkStep_bound (available : Int) (chunks : List ReviewChunk)
    (p : FileDiff × Int)
    (hb : ∀ c ∈ chunks, c.token_estimate ≤ available) :
    ∀ c ∈ chunkStep available chunks p, c.token_estimate ≤ available := by
  unfold chunkStep
  by_cases h : p.2 > available
  · rw [if_pos h]
    intro c hc
    rcases List.mem_append.mp hc with hc | hc
    · exact hb c hc
    · simp only [List.mem_singleton] at hc
      subst hc
      exact le_refl available
  · rw [if_neg h]
    exact placeFirstFit_bound available p.1 p.2 chunks hb (not_lt.mp h)

/-- The chunking fold: chunk contents are the images of the consumed pairs
(up to permutation) and every chunk stays within the budget. -/
theorem chunkFold_spec (available : Int) (l : List (FileDiff × Int)) :
    ∀ cs : List ReviewChunk, (∀ c ∈ cs, c.token_estimate ≤ available) →
      (chunkFilesOf (l.foldl (chunkStep available) cs)).Perm
          (chunkFilesOf cs ++ l.map (pairImage available)) ∧
        (∀ c ∈ l.foldl (chunkStep available) cs, c.token_estimate ≤ available) := by
  induction l with
  | nil =>
      intro cs hb
      refine ⟨?_, hb⟩
      simp
  | cons p ps ih =>
      intro cs hb
      have hstep := chunkStep_files available cs p
      have hbound := chunkStep_bound available cs p hb
      obtain ⟨hperm, hbfinal⟩ := ih (chunkStep available cs p) hbound
      refine ⟨?_, hbfinal⟩
      refine hperm.trans ?_
      have h2 : ((chunkFilesOf cs ++ [pairImage available p]) ++ ps.map (pairImage available)).Perm
          (chunkFilesOf cs ++ (p :: ps).map (pairImage available)) := by
        rw [List.append_assoc, List.map_cons]
        exact List.Perm.refl _
      exact (hstep.append_right (ps.map (pairImage available))).trans h2

/-- The hunk-keeping loop always returns an initial segment of its input. -/
theorem truncHunksGo_take (max_tokens : Int) (l : List HunkInfo) :
    ∀ used : Int, ∃ k, truncHunksGo max_tokens l used = l.take k := by
  induction l with
  | nil => intro used; exact ⟨0, rfl⟩
  | cons h rest ih =>
      intro used
      unfold truncHunksGo
      by_cases hov : used + estimate_tokens h.content > max_tokens
      · rw [if_pos hov]; exact ⟨0, rfl⟩
      · rw [if_neg hov]
        obtain ⟨k, hk⟩ := ih (used + estimate_tokens h.content)
        exact ⟨k + 1, by rw [hk]; rfl⟩

/-- `_truncate_file` keeps a non-empty initial segment of the hunks of any
file that has hunks, and an empty file stays empty. -/
theorem truncate_file_hunks (f : FileDiff) (max_tokens : Int) :
    (f.hunks = [] → (truncate_file f max_tokens).hunks = []) ∧
      (f.hunks ≠ [] → ∃ k, 1 ≤ k ∧
        (truncate_file f max_tokens).hunks = f.hunks.take k) := by
  constructor
  · intro hnil
    unfold truncate_file
    rw [hnil]
    simp [truncHunksGo]
  · intro hne
    unfold truncate_file
    by_cases hk : truncHunksGo max_tokens f.hunks 20 = []
    · rw [if_pos hk]
      cases hf : f.hunks with
      | nil => exact absurd hf hne
      | cons h0 t =>
          exact ⟨1, le_refl 1, rfl⟩
    · rw [if_neg hk]
      obtain ⟨k, hkeq⟩ := truncHunksGo_take max_tokens f.hunks 20
      refine ⟨k, ?_, hkeq⟩
      by_contra hlt
      push_neg at hlt
      interval_cases k
      simp at hkeq
      exact hk hkeq

/-- Claim C5: concatenating the chunker's chunk file lists is a permutation
of the filtered input in which each oversized file is replaced by its
truncation; every chunk's token estimate is at most the available budget
(`max_tokens` minus the fixed 2000-token prompt overhead); truncation drops
trailing hunks only and always retains at least the first hunk. -/
theorem chunker_partition_and_bounds (files : List FileDiff) (max_tokens : Int)
    (count_tokens : Option (String → Int)) :
    (chunkFilesOf (chunk_files files max_tokens count_tokens)).Perm
        (files.map (chunkedImage (max_tokens - 2000) count_tokens)) ∧
      (∀ c ∈ chunk_files files max_tokens count_tokens,
        c.token_estimate ≤ max_tokens - 2000) ∧
      (∀ f : FileDiff, f.hunks ≠ [] → ∃ k, 1 ≤ k ∧
        (truncate_file f (max_tokens - 2000)).hunks = f.hunks.take k) := by
  refine ⟨?_, ?_, fun f hf => (truncate_file_hunks f (max_tokens - 2000)).2 hf⟩
  · unfold chunk_files
    by_cases hnil : files = []
    · rw [if_pos hnil, hnil]
      simp [chunkFilesOf]
    · rw [if_neg hnil]
      obtain ⟨hperm, _⟩ := chunkFold_spec (max_tokens - 2000)
        (sortEstDesc (files.map (fun f => (f, fileEstimate count_tokens f)))) []
        (by intro c hc; simp at hc)
      refine hperm.trans ?_
      have h0 : chunkFilesOf [] = [] := rfl
      rw [h0, List.nil_append]
      have hsp := sortEstDesc_perm (files.map (fun f => (f, fileEstimate count_tokens f)))
      refine (hsp.map (pairImage (max_tokens - 2000))).trans ?_
      rw [List.map_map]
      exact List.Perm.refl _
  · unfold chunk_files
    by_cases hnil : files = []
    · rw [if_pos hnil]
      intro c hc
      simp at hc
    · rw [if_neg hnil]
      exact (chunkFold_spec (max_tokens - 2000)
        (sortEstDesc (files.map (fun f => (f, fileEstimate count_tokens f)))) []
        (by intro c hc; simp at hc)).2

/-- Counterexample to C6 as stated: on a diff whose only boundary is at
index 0, the claim mandates truncating at that boundary (empty result) but
the code keeps the whole first `max_diff_size` characters, because of the
`last_boundary > 0` guard. -/
theorem diff_truncation_counterexample :
    truncate_diff "\ndiff --git a/x extra" 15 ≠
        truncate_diff_claimed "\ndiff --git a/x extra" 15 ∧
      truncate_diff_claimed "\ndiff --git a/x extra" 15 = "" ∧
      truncate_diff "\ndiff --git a/x extra" 15 = "\ndiff --git a/x" := by
  refine ⟨by decide, by decide, by decide⟩

/-- `boundaryAt` unfolds to a prefix test after a drop. -/
theorem boundaryAt_eq (t : List Char) (i : Nat) :
    boundaryAt t i = diffBoundary.data.isPrefixOf (t.drop i) := rfl

/-- If `rfind`'s scan returns nothing, no position up to the scan bound
matches. -/
theorem rfindAux_eq_none (t nd : List Char) :
    ∀ n, rfindAux t nd n = none →
      ∀ k, k ≤ n → nd.isPrefixOf (t.drop k) = false := by
  intro n
  induction n with
  | zero =>
      intro hnone k hk
      interval_cases k
      unfold rfindAux at hnone
      rw [List.drop_zero]
      cases hp : nd.isPrefixOf t with
      | true => rw [hp] at hnone; simp at hnone
      | false => rfl
  | succ n ih =>
      intro hnone k hk
      unfold rfindAux at hnone
      cases hp : nd.isPrefixOf (t.drop (n + 1)) with
      | true => rw [hp] at hnone; simp at hnone
      | false =>
          rw [hp] at hnone
          simp only [Bool.false_eq_true, if_false] at hnone
          rcases Nat.lt_or_ge k (n + 1) with hlt | hge
          · exact ih hnone k (Nat.lt_succ_iff.mp hlt)
          · have hke : k = n + 1 := le_antisymm hk hge
            rw [hke]
            exact hp

/-- If `rfind`'s scan returns `j`, then `j` matches and no later position up
to the scan bound matches. -/
theorem rfindAux_eq_some (t nd : List Char) :
    ∀ n j, rfindAux t nd n = some j →
      j ≤ n ∧ nd.isPrefixOf (t.drop j) = true ∧
        ∀ k, j < k → k ≤ n → nd.isPrefixOf (t.drop k) = false := by
  intro n
  induction n with
  | zero =>
      intro j hsome
      unfold rfindAux at hsome
      cases hp : nd.isPrefixOf t with
      | true =>
          rw [hp] at hsome
          simp only [if_true] at hsome
          obtain rfl : 0 = j := by simpa using hsome
          refine ⟨le_refl 0, by rw [List.drop_zero]; exact hp, ?_⟩
          intro k hk1 hk2
          exact absurd (lt_of_lt_of_le hk1 hk2) (lt_irrefl 0)
      | false => rw [hp] at hsome; simp at hsome
  | succ n ih =>
      intro j hsome
      unfold rfindAux at hsome
      cases hp : nd.isPrefixOf (t.drop (n + 1)) with
      | true =>
          rw [hp] at hsome
          simp only [if_true] at hsome
          obtain rfl : n + 1 = j := by simpa using hsome
          refine ⟨le_refl _, hp, ?_⟩
          intro k hk1 hk2
          exact absurd (lt_of_lt_of_le hk1 hk2) (lt_irrefl _)
      | false =>
          rw [hp] at hsome
          simp only [Bool.false_eq_true, if_false] at hsome
          obtain ⟨h1, h2, h3⟩ := ih j hsome
          refine ⟨Nat.le_succ_of_le h1, h2, ?_⟩
          intro k hk1 hk2
          rcases Nat.lt_or_ge k (n + 1) with hlt | hge
          · exact h3 k hk1 (Nat.lt_succ_iff.mp hlt)
          · have hke : k = n + 1 := le_antisymm hk2 hge
            rw [hke]
            exact hp

/-- A non-empty pattern cannot occur past the end of the text. -/
theorem boundaryAt_past_end (t : List Char) (i : Nat) (hi : t.length < i) :
    boundaryAt t i = false := by
  unfold boundaryAt
  have hdrop : t.drop i = [] := List.drop_eq_nil_of_le (le_of_lt hi)
  rw [hdrop]
  decide

/-- Amended C6: a diff of length at most `max_diff_size` passes through
unchanged; a longer diff is cut to its first `max_diff_size` characters and
then (a) stays that way when no boundary occurs at a strictly positive
index, or (b) is cut at the last boundary when one occurs at a strictly
positive index.  (The code ignores a boundary at index 0 and then truncates
at exactly `max_diff_size` characters.) -/
theorem diff_truncation_amended (s : String) (m : Nat) :
    (pyLen s ≤ m → truncate_diff s m = s) ∧
      (pyLen s > m →
        ((∀ i < (pyTake s m).data.length + 1, 0 < i →
            boundaryAt (pyTake s m).data i = false) →
          truncate_diff s m = pyTake s m) ∧
        (∀ i, 0 < i → boundaryAt (pyTake s m).data i = true →
          (∀ j < (pyTake s m).data.length + 1, i < j →
            boundaryAt (pyTake s m).data j = false) →
          truncate_diff s m = pyTake (pyTake s m) i)) := by
  constructor
  · intro hle
    unfold truncate_diff
    rw [if_neg (by omega)]
  · intro hgt
    constructor
    · intro hnone
      unfold truncate_diff
      rw [if_pos hgt]
      cases hr : pyRfind (pyTake s m).data diffBoundary.data with
      | none => rfl
      | some i =>
          obtain ⟨h1, h2, _⟩ := rfindAux_eq_some _ _ _ _ hr
          by_cases hpos : 0 < i
          · have hb := hnone i (by omega) hpos
            rw [boundaryAt_eq] at hb
            rw [hb] at h2
            exact absurd h2 (by simp)
          · show (if 0 < i then pyTake (pyTake s m) i else pyTake s m) = pyTake s m
            rw [if_neg hpos]
    · intro i hpos hbound hmax
      unfold truncate_diff
      rw [if_pos hgt]
      have hilen : i ≤ (pyTake s m).data.length := by
        by_contra hgt2
        push_neg at hgt2
        have hpast := boundaryAt_past_end (pyTake s m).data i hgt2
        rw [hbound] at hpast
        exact absurd hpast (by simp)
      cases hr : pyRfind (pyTake s m).data diffBoundary.data with
      | none =>
          have hmiss := rfindAux_eq_none _ _ _ hr i hilen
          rw [boundaryAt_eq] at hbound
          rw [hbound] at hmiss
          exact absurd hmiss (by simp)
      | some j =>
          obtain ⟨h1, h2, h3⟩ := rfindAux_eq_some _ _ _ _ hr
          have hij : i = j := by
            rcases Nat.lt_trichotomy i j with hlt | heq | hgt3
            · have hb := hmax j (by omega) hlt
              rw [boundaryAt_eq] at hb
              rw [h2] at hb
              exact absurd hb (by simp)
            · exact heq
            · have hb := h3 i hgt3 hilen
              rw [boundaryAt_eq] at hbound
              rw [hbound] at hb
              exact absurd hb (by simp)
          show (if 0 < j then pyTake (pyTake s m) j else pyTake s m) = pyTake (pyTake s m) i
          rw [← hij, if_pos hpos]

/-- Witness for the amended C6 on a concrete long diff whose last boundary
is at index 3: the cap cuts exactly there. -/
theorem diff_truncation_amended_witness :
    truncate_diff "abc\ndiff --git qrs" 17 = "abc" := by
  have h := (diff_truncation_amended "abc\ndiff --git qrs" 17).2 (by decide)
  exact h.2 3 (by decide) (by decide) (by decide)

/-- Claim C1 (code bug): the verify-fixes call
`self.llm.complete(prompt, json_mode=True, temperature=0.0)` cannot bind —
`LLMProvider.complete` declares no `temperature` parameter — so under
Python call semantics `_verify_fixes` raises `TypeError` without issuing
any LLM call, for every prompt, every oracle and every prior trace. -/
theorem verify_fixes_raises_type_error (st : Stages) (llm : LLMOracle)
    (file_groups : List (String × String × List UnresolvedThread))
    (t : List EngineEvent) :
    pyCallBindsOk completeParamNames verifyFixesCompleteKwargs = false ∧
      verifyFixes st llm file_groups t = (.error .typeErr, t) := by
  refine ⟨by decide, ?_⟩
  unfold verifyFixes
  rw [if_neg (by decide)]
  rfl

/-- A character list strips to nothing exactly when it is all whitespace. -/
theorem pyStripList_eq_nil_iff (l : List Char) :
    pyStripList l = [] ↔ ∀ c ∈ l, pyIsSpace c = true := by
  unfold pyStripList
  constructor
  · intro h c hc
    rw [List.reverse_eq_nil_iff] at h
    rw [List.dropWhile_eq_nil_iff] at h
    have h' : ∀ x ∈ l.dropWhile pyIsSpace, pyIsSpace x = true := by
      intro x hx
      exact h x (List.mem_reverse.mpr hx)
    have hsplit := List.takeWhile_append_dropWhile (p := pyIsSpace) (l := l)
    rw [← hsplit] at hc
    rcases List.mem_append.mp hc with hc | hc
    · exact List.mem_takeWhile_imp hc
    · exact h' c hc
  · intro h
    have h1 : l.dropWhile pyIsSpace = [] :=
      List.dropWhile_eq_nil_iff.mpr h
    rw [h1]
    rfl

/-- Stripping a whitespace-only string's prefix still yields nothing. -/
theorem pyStrip_take_eq_empty (s : String) (h : pyStrip s = "") (n : Nat) :
    pyStrip (pyTake s n) = "" := by
  have hl : pyStripList s.data = [] := congrArg String.data h
  have hall := (pyStripList_eq_nil_iff s.data).mp hl
  have hall' : ∀ c ∈ s.data.take n, pyIsSpace c = true := by
    intro c hc
    exact hall c (List.mem_of_mem_take hc)
  show (⟨pyStripList (s.data.take n)⟩ : String) = ""
  rw [(pyStripList_eq_nil_iff (s.data.take n)).mpr hall']

/-- The size cap preserves whitespace-only-ness: every output of
`truncate_diff` is the input or a take-prefix of it. -/
theorem truncate_diff_whitespace (s : String) (m : Nat) (h : pyStrip s = "") :
    pyStrip (truncate_diff s m) = "" := by
  unfold truncate_diff
  by_cases hlen : pyLen s > m
  · rw [if_pos hlen]
    cases pyRfind (pyTake s m).data diffBoundary.data with
    | none => exact pyStrip_take_eq_empty s h m
    | some i =>
        by_cases hpos : 0 < i
        · show pyStrip (if 0 < i then pyTake (pyTake s m) i else pyTake s m) = ""
          rw [if_pos hpos]
          exact pyStrip_take_eq_empty (pyTake s m) (pyStrip_take_eq_empty s h m) i
        · show pyStrip (if 0 < i then pyTake (pyTake s m) i else pyTake s m) = ""
          rw [if_neg hpos]
          exact pyStrip_take_eq_empty s h m
  · rw [if_neg hlen]
    exact h

/-- Claim C7: an empty or whitespace-only diff parses to an empty
`PatchSet` without raising, and the review pipeline returns the
explanatory result with `reviewed_files = 0` while leaving the trace
untouched — no LLM call is issued. -/
theorem whitespace_diff_yields_empty_review (cfg : MiraConfig) (st : Stages)
    (llm : LLMOracle) (pr_title pr_description : String)
    (existing : Option (List UnresolvedThread)) (s : String)
    (t0 : List EngineEvent) (hws : pyStrip s = "") :
    parse_diff st.unidiff_parse s = .ok {} ∧
      reviewDiffInternal cfg st llm s pr_title pr_description existing t0 =
        (.ok { summary := "No files to review.", reviewed_files := 0 }, t0) := by
  have hparse0 : parse_diff st.unidiff_parse s = .ok {} := by
    unfold parse_diff
    rw [if_pos hws]
  refine ⟨hparse0, ?_⟩
  have hparse :
      parse_diff st.unidiff_parse (truncate_diff s cfg.review.max_diff_size) = .ok {} := by
    unfold parse_diff
    rw [if_pos (truncate_diff_whitespace s cfg.review.max_diff_size hws)]
  unfold reviewDiffInternal
  rw [hparse]
  rfl

/-- Witness for C7 on the concrete whitespace diff `" \n "` with default
configuration and refusing oracles: empty patch set, explanatory result,
empty trace. -/
theorem whitespace_diff_witness :
    parse_diff trivialStages.unidiff_parse " \n " = .ok {} ∧
      reviewDiffInternal {} trivialStages trivialLLM " \n " "" "" none [] =
        (.ok { summary := "No files to review.", reviewed_files := 0 }, []) :=
  whitespace_diff_yields_empty_review {} trivialStages trivialLLM "" "" none
    " \n " [] (by decide)

/-- `pure` adds no events. -/
theorem preservesReadOnly_pure {α : Type} (a : α) :
    PreservesReadOnly (pure a : EngineM α) :=
  fun _ ht => ht

/-- `throwErr` adds no events. -/
theorem preservesReadOnly_throw {α : Type} (e : EngineErr) :
    PreservesReadOnly (throwErr (α := α) e) :=
  fun _ ht => ht

/-- `getTrace` adds no events. -/
theorem preservesReadOnly_getTrace : PreservesReadOnly getTrace :=
  fun _ ht => ht

/-- Binding preserves read-only-ness when both parts do. -/
theorem preservesReadOnly_bind {α β : Type} {x : EngineM α} {f : α → EngineM β}
    (hx : PreservesReadOnly x) (hf : ∀ a, PreservesReadOnly (f a)) :
    PreservesReadOnly (x >>= f) := by
  intro t ht
  show ((
    match x t with
    | (Except.ok a, t') => f a t'
    | (Except.error e, t') => (Except.error e, t')).2).all readOnlyEvent = true
  cases hx0 : x t with
  | mk r t' =>
      have ht' : t'.all readOnlyEvent = true := by
        have hh := hx t ht
        rw [hx0] at hh
        exact hh
      cases r with
      | ok a => exact hf a t' ht'
      | error e => exact ht'

/-- Emitting a read-only event preserves read-only-ness. -/
theorem preservesReadOnly_emitCall {α : Type} (ev : EngineEvent)
    (hev : readOnlyEvent ev = true)
    (f : List EngineEvent → Except EngineErr α) :
    PreservesReadOnly (emitCall ev f) := by
  intro t ht
  show ((t ++ [ev]).all readOnlyEvent) = true
  rw [List.all_append]
  simp [ht, hev]

/-- `catchAll` preserves read-only-ness when body and handler do. -/
theorem preservesReadOnly_catchAll {α : Type} {x : EngineM α}
    {h : EngineErr → EngineM α}
    (hx : PreservesReadOnly x) (hh : ∀ e, PreservesReadOnly (h e)) :
    PreservesReadOnly (catchAll x h) := by
  intro t ht
  show ((
    match x t with
    | (Except.ok a, t') => (Except.ok a, t')
    | (Except.error e, t') => h e t').2).all readOnlyEvent = true
  cases hx0 : x t with
  | mk r t' =>
      have ht' : t'.all readOnlyEvent = true := by
        have hh2 := hx t ht
        rw [hx0] at hh2
        exact hh2
      cases r with
      | ok a => exact ht'
      | error e => exact hh e t' ht'

/-- `catchResponseParse` preserves read-only-ness when body and handler
do. -/
theorem preservesReadOnly_catchRPE {α : Type} {x : EngineM α}
    {h : EngineErr → EngineM α}
    (hx : PreservesReadOnly x) (hh : ∀ e, PreservesReadOnly (h e)) :
    PreservesReadOnly (catchResponseParse x h) := by
  intro t ht
  show ((
    match x t with
    | (Except.ok a, t') => (Except.ok a, t')
    | (Except.error e, t') =>
        if e = EngineErr.responseParseErr then h e t' else (Except.error e, t')).2).all readOnlyEvent = true
  cases hx0 : x t with
  | mk r t' =>
      have ht' : t'.all readOnlyEvent = true := by
        have hh2 := hx t ht
        rw [hx0] at hh2
        exact hh2
      cases r with
      | ok a => exact ht'
      | error e =>
          show (if e = EngineErr.responseParseErr then h e t'
              else (Except.error e, t')).2.all readOnlyEvent = true
          by_cases he : e = EngineErr.responseParseErr
          · rw [if_pos he]; exact hh e t' ht'
          · rw [if_neg he]; exact ht'

/-- An `if` preserves read-only-ness when both branches do. -/
theorem preservesReadOnly_ite {α : Type} (c : Prop) [Decidable c]
    {x y : EngineM α} (hx : PreservesReadOnly x) (hy : PreservesReadOnly y) :
    PreservesReadOnly (if c then x else y) := by
  by_cases h : c
  · rw [if_pos h]; exact hx
  · rw [if_neg h]; exact hy

/-- A monadic fold preserves read-only-ness when each step does. -/
theorem preservesReadOnly_foldlM {α β : Type} (f : β → α → EngineM β)
    (hf : ∀ b a, PreservesReadOnly (f b a)) :
    ∀ (l : List α) (init : β), PreservesReadOnly (l.foldlM f init) := by
  intro l
  induction l with
  | nil =>
      intro init
      rw [List.foldlM_nil]
      exact preservesReadOnly_pure init
  | cons a as ih =>
      intro init
      rw [List.foldlM_cons]
      exact preservesReadOnly_bind (hf init a) (fun b => ih b)

/-- The LLM call is a read-only event. -/
theorem preservesReadOnly_llmCompleteCall (llm : LLMOracle)
    (messages : List ChatMessage) (jm : Bool) :
    PreservesReadOnly (llmCompleteCall llm messages jm) :=
  preservesReadOnly_emitCall _ (by rfl) _

/-- `_verify_fixes` never writes (it either raises `TypeError` or would
only call the LLM). -/
theorem preservesReadOnly_verifyFixes (st : Stages) (llm : LLMOracle)
    (fg : List (String × String × List UnresolvedThread)) :
    PreservesReadOnly (verifyFixes st llm fg) := by
  unfold verifyFixes
  apply preservesReadOnly_ite
  · exact preservesReadOnly_bind (preservesReadOnly_llmCompleteCall llm _ true)
      (fun r => preservesReadOnly_pure _)
  · exact preservesReadOnly_throw _

/-- Under dry-run, `_resolve_verified_threads` never writes: it only reads
threads and file contents, and the `resolve_threads` call is guarded by
the dry-run check. -/
theorem preservesReadOnly_resolveVerifiedThreads (st : Stages) (llm : LLMOracle)
    (prov : ProviderOracle) (bot : String) (pr_info : PRInfo) :
    PreservesReadOnly (resolveVerifiedThreads st llm prov bot true pr_info) := by
  unfold resolveVerifiedThreads
  apply preservesReadOnly_bind
  case hx => exact preservesReadOnly_emitCall _ (by rfl) _
  intro threads
  apply preservesReadOnly_ite
  · exact preservesReadOnly_pure _
  · apply preservesReadOnly_bind
    · apply preservesReadOnly_foldlM
      intro acc t
      apply preservesReadOnly_ite
      · exact preservesReadOnly_pure _
      · apply preservesReadOnly_bind
        case hx => exact preservesReadOnly_emitCall _ (by rfl) _
        exact fun c => preservesReadOnly_pure _
    · intro file_contents
      apply preservesReadOnly_bind (preservesReadOnly_verifyFixes st llm _)
      intro verified_ids
      apply preservesReadOnly_bind
      · apply preservesReadOnly_ite
        · exact preservesReadOnly_pure _
        · exact preservesReadOnly_pure _
      · intro resolved
        exact preservesReadOnly_pure _

/-- A chunk-review iteration only calls the LLM. -/
theorem preservesReadOnly_reviewChunkStep (cfg : MiraConfig) (st : Stages)
    (llm : LLMOracle) (pr_title pr_description : String)
    (valid_paths : List String)
    (state : List ReviewComment × List String × List UnresolvedThread)
    (ichunk : Nat × ReviewChunk) :
    PreservesReadOnly
      (reviewChunkStep cfg st llm pr_title pr_description valid_paths state ichunk) := by
  unfold reviewChunkStep
  apply preservesReadOnly_catchRPE
  · apply preservesReadOnly_bind
    case hx => exact preservesReadOnly_llmCompleteCall llm _ true
    intro raw
    apply preservesReadOnly_bind
    · cases st.parse_llm_response raw with
      | ok p => exact preservesReadOnly_pure _
      | error e => exact preservesReadOnly_throw _
    · intro parsed
      exact preservesReadOnly_pure _
  · intro e
    exact preservesReadOnly_pure _

/-- The core review pipeline only calls the LLM — it never touches the
provider. -/
theorem preservesReadOnly_reviewDiffInternal (cfg : MiraConfig) (st : Stages)
    (llm : LLMOracle) (diff_text pr_title pr_description : String)
    (existing : Option (List UnresolvedThread)) :
    PreservesReadOnly
      (reviewDiffInternal cfg st llm diff_text pr_title pr_description existing) := by
  unfold reviewDiffInternal
  apply preservesReadOnly_bind
  · cases parse_diff st.unidiff_parse (truncate_diff diff_text cfg.review.max_diff_size) with
    | ok p => exact preservesReadOnly_pure _
    | error e => exact preservesReadOnly_throw _
  · intro patch
    apply preservesReadOnly_ite
    · exact preservesReadOnly_pure _
    · apply preservesReadOnly_ite
      · exact preservesReadOnly_pure _
      · apply preservesReadOnly_bind
        · apply preservesReadOnly_ite
          · apply preservesReadOnly_catchAll
            · apply preservesReadOnly_bind
              case hx => exact preservesReadOnly_llmCompleteCall llm _ true
              intro wt_raw
              cases st.parse_walkthrough wt_raw with
              | ok w => exact preservesReadOnly_pure _
              | error e => exact preservesReadOnly_throw _
            · intro e
              exact preservesReadOnly_pure _
          · exact preservesReadOnly_pure _
        · intro walkthrough
          apply preservesReadOnly_bind
          · apply preservesReadOnly_foldlM
            intro b a
            exact preservesReadOnly_reviewChunkStep cfg st llm pr_title pr_description _ b a
          · intro res
            apply preservesReadOnly_bind
            case hx => exact preservesReadOnly_getTrace
            intro trace
            exact preservesReadOnly_pure _

/-- Claim C8: a dry-run PR review is read-only.  Starting from any
read-only trace, `review_pr` with `dry_run = true` adds no
`resolve_threads`, `post_review`, `post_comment`, or `update_comment`
event, for every oracle behaviour and every review outcome. -/
theorem dry_run_is_read_only (cfg : MiraConfig) (st : Stages) (llm : LLMOracle)
    (prov : ProviderOracle) (bot_name : String) (pr_url : String) :
    PreservesReadOnly (review_pr cfg st llm prov bot_name true pr_url) := by
  unfold review_pr
  apply preservesReadOnly_bind
  case hx => exact preservesReadOnly_emitCall _ (by rfl) _
  intro pr_info
  apply preservesReadOnly_bind
  · apply preservesReadOnly_ite
    · apply preservesReadOnly_catchAll
      · exact preservesReadOnly_resolveVerifiedThreads st llm prov bot_name pr_info
      · intro e
        exact preservesReadOnly_pure _
    · exact preservesReadOnly_pure _
  · intro resolution
    apply preservesReadOnly_bind
    case hx => exact preservesReadOnly_emitCall _ (by rfl) _
    intro diff_text
    apply preservesReadOnly_bind
    case hx => exact preservesReadOnly_reviewDiffInternal cfg st llm diff_text _ _ _
    intro result
    apply preservesReadOnly_bind
    · cases result.walkthrough with
      | some wt => exact preservesReadOnly_pure _
      | none => exact preservesReadOnly_pure _
    · intro u
      apply preservesReadOnly_bind
      · apply preservesReadOnly_ite
        · exact preservesReadOnly_pure _
        · exact preservesReadOnly_pure _
      · intro v
        exact preservesReadOnly_pure _

/-- C8 at the top level: the full event trace of a dry-run `review_pr`
started on an empty trace contains only read-only events. -/
theorem dry_run_trace_has_no_writes (cfg : MiraConfig) (st : Stages)
    (llm : LLMOracle) (prov : ProviderOracle) (bot_name : String)
    (pr_url : String) :
    ((review_pr cfg st llm prov bot_name true pr_url) []).2.all readOnlyEvent = true :=
  dry_run_is_read_only cfg st llm prov bot_name pr_url [] rfl
